import Mathlib

/-!
Verification of the data-normalization pipeline of the air-quality dashboard
(`analysis.py`).  The pandas `DataFrame` is embedded as an association list
from column names to lists of cell values; every pandas operation used by the
source (`replace`, `to_datetime`, `combine_first`, `.dt.time`, `astype(str)`,
`str.replace`, `to_numeric`, boolean-mask row filtering, `groupby(...).mean()`)
is given an executable cell-level or column-level model.  Numeric cells are
modelled as exact rationals: the source's float64 values round-trip through
`str`/`float`, and the rational model mirrors that round-trip exactly.
-/

/-- Fuel-driven Euclidean gcd.  `fgcd (a + 1) a b = Nat.gcd a b`; the fuel
formulation keeps the function reducible by the kernel. -/
def fgcd : Nat → Nat → Nat → Nat
  | 0, _, b => b
  | f + 1, a, b => if a = 0 then b else fgcd f (b % a) a

/-- Kernel-reducible gcd. -/
def kgcd (a b : Nat) : Nat := fgcd (a + 1) a b

theorem fgcd_eq (f a b : Nat) (h : a ≤ f) : fgcd (f + 1) a b = Nat.gcd a b := by
  induction f generalizing a b with
  | zero =>
    have : a = 0 := by omega
    subst this
    simp [fgcd, Nat.gcd]
  | succ f ih =>
    by_cases ha : a = 0
    · subst ha; simp [fgcd, Nat.gcd]
    · have hlt : b % a < a := Nat.mod_lt _ (Nat.pos_of_ne_zero ha)
      rw [fgcd, if_neg ha, ih _ _ (by omega), Nat.gcd_rec a b]

theorem kgcd_eq (a b : Nat) : kgcd a b = Nat.gcd a b :=
  fgcd_eq _ a b (by omega)

/-- Normalizing rational constructor, reducible by the kernel (unlike `ℚ`'s
own arithmetic, which goes through `Nat.gcd`).  `qMk n d = n / d` for
`d ≠ 0`. -/
def qMk (n : Int) (d : Nat) : ℚ :=
  let g := kgcd n.natAbs d
  let na := n.natAbs / g
  let n' : Int := if n < 0 then -(na : Int) else (na : Int)
  let d' := d / g
  if h : d' ≠ 0 ∧ kgcd n'.natAbs d' = 1 then
    ⟨n', d', h.1, by have := h.2; rwa [kgcd_eq] at this⟩
  else 0

theorem qMk_natAbs (n : Int) (na : Nat) :
    (if n < 0 then -(na : Int) else (na : Int)).natAbs = na := by
  by_cases hn : n < 0 <;> simp [hn]

theorem div_swap_of_dvd {g x y : Nat} (hg : g ≠ 0) (hx : g ∣ x) (hy : g ∣ y) :
    (x / g) * y = x * (y / g) := by
  rcases hx with ⟨a, rfl⟩
  rcases hy with ⟨b, rfl⟩
  have hpos : 0 < g := Nat.pos_of_ne_zero hg
  rw [Nat.mul_div_cancel_left a hpos, Nat.mul_div_cancel_left b hpos]
  ring

theorem qMk_eq_div (n : Int) (d : Nat) (hd : d ≠ 0) :
    qMk n d = (n : ℚ) / (d : ℚ) := by
  unfold qMk
  have hg : Nat.gcd n.natAbs d ≠ 0 := Nat.gcd_ne_zero_right hd
  have hgd : Nat.gcd n.natAbs d ∣ d := Nat.gcd_dvd_right _ _
  have hgn : Nat.gcd n.natAbs d ∣ n.natAbs := Nat.gcd_dvd_left _ _
  have hd' : d / Nat.gcd n.natAbs d ≠ 0 := by
    intro h0
    have := Nat.div_mul_cancel hgd
    rw [h0, zero_mul] at this
    exact hd this.symm
  have hco : Nat.Coprime (n.natAbs / Nat.gcd n.natAbs d) (d / Nat.gcd n.natAbs d) := by
    by_cases hn : n.natAbs = 0
    · have : d / Nat.gcd n.natAbs d = 1 := by
        rw [hn, Nat.gcd_zero_left, Nat.div_self (Nat.pos_of_ne_zero hd)]
      simp [Nat.Coprime, this]
    · exact Nat.coprime_div_gcd_div_gcd
        (Nat.gcd_pos_of_pos_left _ (Nat.pos_of_ne_zero hn))
  simp only [kgcd_eq]
  rw [dif_pos ⟨hd', by rw [qMk_natAbs]; exact hco⟩]
  rw [Rat.mk'_eq_divInt]
  -- nat-level identity: (|n|/g) * d = |n| * (d/g)
  have key : (n.natAbs / Nat.gcd n.natAbs d) * d
      = n.natAbs * (d / Nat.gcd n.natAbs d) :=
    div_swap_of_dvd hg hgn hgd
  have main : Rat.divInt (if n < 0 then -((n.natAbs / Nat.gcd n.natAbs d : Nat) : Int)
        else ((n.natAbs / Nat.gcd n.natAbs d : Nat) : Int))
        ((d / Nat.gcd n.natAbs d : Nat) : Int) = Rat.divInt n (d : Int) := by
    rw [Rat.divInt_eq_iff (by exact_mod_cast hd') (by exact_mod_cast hd)]
    by_cases hn : n < 0
    · rw [if_pos hn]
      have hkey : ((n.natAbs / Nat.gcd n.natAbs d : Nat) : Int) * (d : Int)
          = (n.natAbs : Int) * ((d / Nat.gcd n.natAbs d : Nat) : Int) := by
        exact_mod_cast key
      have hnn : n + (n.natAbs : Int) = 0 := by omega
      linear_combination (-1 : Int) * hkey
        - ((d / Nat.gcd n.natAbs d : Nat) : Int) * hnn
    · rw [if_neg hn]
      have hnn : n = (n.natAbs : Int) := (Int.natAbs_of_nonneg (by omega)).symm
      rw [hnn]
      exact_mod_cast key
  rw [main, Rat.divInt_eq_div]
  norm_cast

/-- The decimal digit character for `n < 10`. -/
def digitChar : Nat → Char
  | 0 => '0' | 1 => '1' | 2 => '2' | 3 => '3' | 4 => '4'
  | 5 => '5' | 6 => '6' | 7 => '7' | 8 => '8' | 9 => '9'
  | _ => '0'

/-- Numeric value of a digit character. -/
def charVal (c : Char) : Nat := c.toNat - 48

/-- Value of a most-significant-first digit string. -/
def digitsToNat (l : List Char) : Nat :=
  l.foldl (fun a c => 10 * a + charVal c) 0

/-- Decimal digits of `n`, most significant first, produced with explicit
fuel so that the kernel can evaluate it. -/
def natDigitsAux : Nat → Nat → List Char
  | 0, _ => []
  | f + 1, n => if n < 10 then [digitChar n]
                else natDigitsAux f (n / 10) ++ [digitChar (n % 10)]

def natDigits (n : Nat) : List Char := natDigitsAux (n + 1) n

theorem charVal_digitChar (n : Nat) (h : n < 10) : charVal (digitChar n) = n := by
  interval_cases n <;> rfl

theorem isDigit_digitChar (n : Nat) (h : n < 10) : (digitChar n).isDigit = true := by
  interval_cases n <;> rfl

theorem digitsToNat_append_singleton (l : List Char) (c : Char) :
    digitsToNat (l ++ [c]) = 10 * digitsToNat l + charVal c := by
  simp [digitsToNat, List.foldl_append]

theorem natDigitsAux_correct (f n : Nat) (h : n < f) :
    digitsToNat (natDigitsAux f n) = n
    ∧ (natDigitsAux f n) ≠ []
    ∧ ∀ c ∈ natDigitsAux f n, c.isDigit = true := by
  induction f generalizing n with
  | zero => omega
  | succ f ih =>
    by_cases hn : n < 10
    · refine ⟨?_, by simp [natDigitsAux, hn], ?_⟩
      · simp [natDigitsAux, hn, digitsToNat, charVal_digitChar n hn]
      · intro c hc
        simp [natDigitsAux, hn] at hc
        subst hc
        exact isDigit_digitChar n hn
    · have hrec : n / 10 < f := by omega
      obtain ⟨hv, hne, hdig⟩ := ih (n / 10) hrec
      rw [natDigitsAux, if_neg hn]
      refine ⟨?_, by simp, ?_⟩
      · rw [digitsToNat_append_singleton, hv, charVal_digitChar _ (Nat.mod_lt _ (by omega))]
        omega
      · intro c hc
        rcases List.mem_append.mp hc with h1 | h1
        · exact hdig c h1
        · simp at h1
          subst h1
          exact isDigit_digitChar _ (Nat.mod_lt _ (by omega))

theorem natDigits_val (n : Nat) : digitsToNat (natDigits n) = n :=
  (natDigitsAux_correct _ n (by omega)).1

theorem natDigits_ne_nil (n : Nat) : natDigits n ≠ [] :=
  (natDigitsAux_correct _ n (by omega)).2.1

theorem natDigits_digits (n : Nat) : ∀ c ∈ natDigits n, c.isDigit = true :=
  (natDigitsAux_correct _ n (by omega)).2.2

theorem natDigitsAux_length (f n k : Nat) (hf : n < f) (hk : 1 ≤ k)
    (h : n < 10 ^ k) : (natDigitsAux f n).length ≤ k := by
  induction f generalizing n k with
  | zero => omega
  | succ f ih =>
    by_cases hn : n < 10
    · simp [natDigitsAux, hn]
      omega
    · rw [natDigitsAux, if_neg hn]
      obtain ⟨j, rfl⟩ : ∃ j, k = j + 1 := ⟨k - 1, by omega⟩
      rw [pow_succ] at h
      have hj : 1 ≤ j := by
        by_contra hcon
        have : j = 0 := by omega
        subst this
        simp at h
        omega
      have hdiv : n / 10 < 10 ^ j := Nat.div_lt_of_lt_mul (by omega)
      have := ih (n / 10) j (by omega) hj hdiv
      simp
      omega

theorem natDigits_length (n k : Nat) (hk : 1 ≤ k) (h : n < 10 ^ k) :
    (natDigits n).length ≤ k :=
  natDigitsAux_length _ n k (by omega) hk h

/-- Calendar date (a pandas Timestamp at midnight). -/
structure Date where
  year : Nat
  month : Nat
  day : Nat
deriving DecidableEq

/-- Time of day (a datetime.time value). -/
structure Time where
  hour : Nat
  minute : Nat
  second : Nat
deriving DecidableEq

/-- One cell of a DataFrame: a float64 (modelled exactly as a rational), a
raw string, a Timestamp at midnight, a time-of-day, a full timestamp, or the
missing marker (NaN / NaT). -/
inductive Val where
  | vnum (q : ℚ)
  | vstr (s : String)
  | vdate (d : Date)
  | vtime (t : Time)
  | vdt (d : Date) (t : Time)
  | absent
deriving DecidableEq

def isWS (c : Char) : Bool := c = ' ' || c = '\t' || c = '\n' || c = '\r'

/-- str.strip(). -/
def myTrim (l : List Char) : List Char :=
  ((l.dropWhile isWS).reverse.dropWhile isWS).reverse

/-- str.replace with one-character needle and replacement. -/
def mapChar (a b : Char) (l : List Char) : List Char :=
  l.map fun c => if c = a then b else c

/-- str.split(sep) on characters. -/
def splitChar (sep : Char) : List Char → List (List Char)
  | [] => [[]]
  | c :: l =>
    let r := splitChar sep l
    if c = sep then [] :: r
    else
      match r with
      | [] => [[c]]
      | a :: rest => (c :: a) :: rest

/-- Split at the first occurrence of `sep` (the separator stays in the second
component). -/
def breakAt (sep : Char) : List Char → List Char × List Char
  | [] => ([], [])
  | c :: l =>
    if c = sep then ([], c :: l)
    else
      let p := breakAt sep l
      (c :: p.1, p.2)

def allDigits (l : List Char) : Bool := l.all Char.isDigit

/-- The optional leading sign of a numeric literal. -/
def signSplit (l : List Char) : Bool × List Char :=
  match l with
  | [] => (false, [])
  | c :: r => if c = '-' then (true, r) else if c = '+' then (false, r) else (false, c :: r)

/-- Model of float()/pd.to_numeric on one string: optional sign, integer
digits, optional '.' and fraction digits — the plain decimal notation the
air-quality export and float repr use. -/
def parseNum (l0 : List Char) : Option ℚ :=
  let l1 := myTrim l0
  let sl : Bool × List Char := signSplit l1
  match breakAt '.' sl.2 with
  | (ip, []) =>
    if ip ≠ [] ∧ allDigits ip then
      some (qMk (if sl.1 then -(digitsToNat ip : Int) else (digitsToNat ip : Int)) 1)
    else none
  | (ip, _ :: fp) =>
    if allDigits ip ∧ allDigits fp ∧ (ip ≠ [] ∨ fp ≠ []) then
      let n := digitsToNat ip * 10 ^ fp.length + digitsToNat fp
      some (qMk (if sl.1 then -(n : Int) else (n : Int)) (10 ^ fp.length))
    else none

/-- Decimal rendering of a rational whose denominator divides a power of ten:
the str() image of the corresponding float, up to trailing zeros (which
float() ignores on re-parse). -/
def renderQ (q : ℚ) : List Char :=
  let k := q.den
  let c := 10 ^ k / q.den
  let n := q.num.natAbs * c
  (if q.num < 0 then ['-'] else []) ++ natDigits (n / 10 ^ k)
    ++ '.' :: (List.replicate (k - (natDigits (n % 10 ^ k)).length) '0'
        ++ natDigits (n % 10 ^ k))

/-- A one-or-two-digit numeric field with an inclusive bound — the behaviour
of strptime's %H/%M/%S/%m/%d directives. -/
def parseField (l : List Char) (hi : Nat) : Option Nat :=
  if (l.length = 1 ∨ l.length = 2) ∧ allDigits l ∧ digitsToNat l ≤ hi then
    some (digitsToNat l)
  else none

/-- Strict parse with format='%H:%M:%S'. -/
def parseHMS (l : List Char) : Option Time :=
  match splitChar ':' l with
  | [h, m, s] =>
    (parseField h 23).bind fun hv =>
      (parseField m 59).bind fun mv =>
        (parseField s 59).bind fun sv => some ⟨hv, mv, sv⟩
  | _ => none

/-- Strict parse with format='%H:%M'. -/
def parseHM (l : List Char) : Option Time :=
  match splitChar ':' l with
  | [h, m] =>
    (parseField h 23).bind fun hv =>
      (parseField m 59).bind fun mv => some ⟨hv, mv, 0⟩
  | _ => none

/-- Format-inferring to_datetime on a clock string: the colon-separated
formats pandas infers for a time-only value. -/
def parseTimeTxt (l : List Char) : Option Time :=
  match parseHMS l with
  | some t => some t
  | none => parseHM l

def parseYear (l : List Char) : Option Nat :=
  if l ≠ [] ∧ allDigits l then some (digitsToNat l) else none

/-- Month and day fields for a given year (strptime %m rejects 0 and
anything over 12, %d rejects 0 and anything over 31). -/
def parseMD (m d : List Char) (y : Nat) : Option Date :=
  (parseField m 12).bind fun mv =>
    (parseField d 31).bind fun dv =>
      if 1 ≤ mv ∧ 1 ≤ dv then some ⟨y, mv, dv⟩ else none

/-- Format-inferring to_datetime with dayfirst=False on a date string:
ISO YYYY-MM-DD, and slashed dates with the month leading (or the year
leading when the first field has 4 digits). -/
def parseDateTxt (l : List Char) : Option Date :=
  match splitChar '-' l with
  | [y, m, d] => (parseYear y).bind (parseMD m d)
  | _ =>
    match splitChar '/' l with
    | [a, b, c] =>
      if a.length = 4 then (parseYear a).bind (parseMD b c)
      else (parseYear c).bind (parseMD a b)
    | _ => none

/-- Format-inferring to_datetime on "date time" (the concatenation built at
analysis.py lines 87-88) and on a bare date. -/
def parseDateTimeTxt (l : List Char) : Option (Date × Time) :=
  match splitChar ' ' l with
  | [ds, ts] =>
    match parseDateTxt ds, parseTimeTxt ts with
    | some d, some t => some (d, t)
    | _, _ => none
  | [ds] => (parseDateTxt ds).map (fun d => (d, ⟨0, 0, 0⟩))
  | _ => none

def padTo (k : Nat) (l : List Char) : List Char :=
  List.replicate (k - l.length) '0' ++ l

def render2 (n : Nat) : List Char := padTo 2 (natDigits n)

/-- str() of a datetime.time ("HH:MM:SS"). -/
def renderTime (t : Time) : List Char :=
  render2 t.hour ++ ':' :: render2 t.minute ++ ':' :: render2 t.second

/-- strftime('%Y-%m-%d') of a Timestamp. -/
def renderDate (d : Date) : List Char :=
  padTo 4 (natDigits d.year) ++ '-' :: render2 d.month ++ '-' :: render2 d.day

/-- astype(str) on one cell.  NaN prints "nan" and NaT prints "NaT"; both
are unparseable by every later stage, so the single absent marker renders as
"nan".  Floats print their decimal form, Timestamps and times their ISO
forms. -/
def pyStr : Val → List Char
  | .vstr s => s.data
  | .vnum q => renderQ q
  | .vdate d => renderDate d ++ ' ' :: renderTime ⟨0, 0, 0⟩
  | .vtime t => renderTime t
  | .vdt d t => renderDate d ++ ' ' :: renderTime t
  | .absent => ['n', 'a', 'n']

/-- analysis.py line 55: df.replace(-200, np.nan) on one cell — matched by
numeric value (int -200 and float -200.0 alike), never by substring, so a
string cell such as "-200,0" is not affected. -/
def replaceSentinel (v : Val) : Val :=
  if v = .vnum (-200) then .absent else v

/-- analysis.py lines 59-64: per-value date parse with errors='coerce' and
format inference: datetime cells pass through, strings parse or become NaT,
everything else becomes NaT.  (pandas would read a raw numeric cell as an
epoch offset; the export has no numeric Date cells and they are modelled as
unparsed.) -/
def dateStageCell (v : Val) : Val :=
  match v with
  | .vstr s =>
    match parseDateTxt (myTrim s.data) with
    | some d => .vdate d
    | none => .absent
  | .vdate d => .vdate d
  | .vdt d t => .vdt d t
  | _ => .absent

/-- analysis.py lines 67-78 for one value: astype(str), strip, '.'→':',
strict %H:%M:%S, else strict %H:%M, else format inference on the
un-normalized string, else NaT; only the time-of-day is kept. -/
def timeChain (s : List Char) : Val :=
  let raw := myTrim s
  let norm := mapChar '.' ':' raw
  match parseHMS norm with
  | some t => .vtime t
  | none =>
    match parseHM norm with
    | some t => .vtime t
    | none =>
      match parseTimeTxt raw with
      | some t => .vtime t
      | none => .absent

def timeStageCell (v : Val) : Val := timeChain (pyStr v)

/-- .dt.strftime('%Y-%m-%d') on a non-null cell of a datetime64 column. -/
def strfDate (v : Val) : List Char :=
  match v with
  | .vdate d => renderDate d
  | .vdt d _ => renderDate d
  | _ => []

/-- analysis.py lines 84-91, one row: rows where Date and Time are both
non-null get the inferred parse of "YYYY-MM-DD " + str(time) with
errors='coerce'; every other row keeps the NaT initialization. -/
def combineCell (dv tv : Val) : Val :=
  if dv ≠ .absent ∧ tv ≠ .absent then
    match parseDateTimeTxt (strfDate dv ++ ' ' :: pyStr tv) with
    | some p => .vdt p.1 p.2
    | none => .absent
  else .absent

/-- analysis.py lines 103-104 for one cell: astype(str), ','→'.', then
to_numeric with errors='coerce'. -/
def numericCell (v : Val) : Val :=
  match parseNum (mapChar ',' '.' (pyStr v)) with
  | some q => .vnum q
  | none => .absent

/-- A DataFrame: ordered columns, each a name paired with its cells. -/
abbrev Table := List (String × List Val)

def getCol : Table → String → Option (List Val)
  | [], _ => none
  | (n, c) :: t, m => if n = m then some c else getCol t m

def hasCol (t : Table) (m : String) : Bool := (getCol t m).isSome

/-- Column assignment df[m] = cells: replaces the column in place or appends
a new last column, as pandas does. -/
def setCol : Table → String → List Val → Table
  | [], m, v => [(m, v)]
  | (n, c) :: t, m, v => if n = m then (m, v) :: t else (n, c) :: setCol t m v

def mapTable (f : Val → Val) (t : Table) : Table :=
  t.map fun p => (p.1, p.2.map f)

/-- len(df). -/
def nrows : Table → Nat
  | [] => 0
  | (_, c) :: _ => c.length

/-- analysis.py line 55: df_clean.replace(-200, np.nan). -/
def replaceStep (t : Table) : Table := mapTable replaceSentinel t

/-- analysis.py lines 58-64. -/
def dateStep (t : Table) : Table :=
  match getCol t "Date" with
  | some cells => setCol t "Date" (cells.map dateStageCell)
  | none => t

/-- analysis.py lines 67-78. -/
def timeStep (t : Table) : Table :=
  match getCol t "Time" with
  | some cells => setCol t "Time" (cells.map timeStageCell)
  | none => t

/-- analysis.py line 82: df_clean['DateTime'] = pd.NaT. -/
def initStep (t : Table) : Table :=
  setCol t "DateTime" (List.replicate (nrows t) Val.absent)

/-- analysis.py lines 83-91.  The source guards the masked assignment with
valid_datetime_mask.any(); when no row passes the mask, the row-wise map
below equals the all-NaT column that the guard would have left in place. -/
def deriveStep (t : Table) : Table :=
  match getCol t "Date", getCol t "Time" with
  | some dcol, some tcol =>
    setCol t "DateTime" (List.zipWith combineCell dcol tcol)
  | _, _ => t

/-- analysis.py line 93: df_clean['Datetime'] = df_clean['DateTime']. -/
def aliasStep (t : Table) : Table :=
  setCol t "Datetime" ((getCol t "DateTime").getD [])

/-- analysis.py lines 96-98. -/
def numericColumns : List String :=
  ["CO(GT)", "PT08.S1(CO)", "NMHC(GT)", "C6H6(GT)", "PT08.S2(NMHC)",
   "NOx(GT)", "PT08.S3(NOx)", "NO2(GT)", "PT08.S4(NO2)", "PT08.S5(O3)",
   "T", "RH", "AH"]

/-- analysis.py lines 100-104. -/
def numericStep (t : Table) : Table :=
  numericColumns.foldl
    (fun acc col =>
      match getCol acc col with
      | some cells => setCol acc col (cells.map numericCell)
      | none => acc)
    t

/-- The body of clean_data on a non-None frame (analysis.py lines 52-106). -/
def cleanBody (t : Table) : Table :=
  numericStep (aliasStep (deriveStep (initStep (timeStep (dateStep (replaceStep t))))))

/-- analysis.py clean_data (lines 38-106). -/
def clean_data : Option Table → Option Table
  | none => none
  | some df => some (cleanBody df)

/-- The two Python objects visible inside clean_data: the caller's frame
`df` and the working frame `df_clean`.  df.copy() (line 52) deep-copies, so
every later in-place column assignment touches only the work slot. -/
structure CleanState where
  df : Table
  work : Table

def stCopy (s : CleanState) : CleanState := { s with work := s.df }
def stReplace (s : CleanState) : CleanState := { s with work := replaceStep s.work }
def stDate (s : CleanState) : CleanState := { s with work := dateStep s.work }
def stTime (s : CleanState) : CleanState := { s with work := timeStep s.work }
def stInit (s : CleanState) : CleanState := { s with work := initStep s.work }
def stDerive (s : CleanState) : CleanState := { s with work := deriveStep s.work }
def stAlias (s : CleanState) : CleanState := { s with work := aliasStep s.work }
def stNumeric (s : CleanState) : CleanState := { s with work := numericStep s.work }

/-- clean_data as a sequence of statements over the two objects, in source
order (lines 52, 55, 58-64, 67-78, 82, 83-91, 93, 96-104). -/
def cleanProg (s : CleanState) : CleanState :=
  stNumeric (stAlias (stDerive (stInit (stTime (stDate (stReplace (stCopy s)))))))

/-- The outcome of the pd.read_csv call in load_data: either a parsed frame
or some raised exception (FileNotFoundError or any other). -/
inductive LoadOutcome where
  | ok (t : Table)
  | fileNotFound (path : String)
  | otherFailure (msg : String)

/-- df.dropna(axis=1, how='all'): drop the columns with no non-null cell. -/
def dropEmptyCols (t : Table) : Table :=
  t.filter fun p => !(p.2.all (· = Val.absent))

/-- analysis.py load_data (lines 12-35): both except-arms return None, so
every load-time failure is surfaced as a value. -/
def load_data : LoadOutcome → Option Table
  | .ok t => some (dropEmptyCols t)
  | .fileNotFound _ => none
  | .otherFailure _ => none

/-- Lexicographic order on timestamps. -/
def tsLE (a b : Date × Time) : Bool :=
  if a.1.year ≠ b.1.year then a.1.year < b.1.year
  else if a.1.month ≠ b.1.month then a.1.month < b.1.month
  else if a.1.day ≠ b.1.day then a.1.day < b.1.day
  else if a.2.hour ≠ b.2.hour then a.2.hour < b.2.hour
  else if a.2.minute ≠ b.2.minute then a.2.minute < b.2.minute
  else a.2.second ≤ b.2.second

/-- The timestamp of a datetime64 cell (a bare date sits at midnight). -/
def cellTS : Val → Option (Date × Time)
  | .vdate d => some (d, ⟨0, 0, 0⟩)
  | .vtime _ => none
  | .vdt d t => some (d, t)
  | _ => none

/-- df['Date'] >= pd.to_datetime(b): comparisons with NaT are False, so rows
with an absent Date are dropped whenever a bound is given. -/
def geBound (b : Date) (v : Val) : Bool :=
  match cellTS v with
  | some ts => tsLE (b, ⟨0, 0, 0⟩) ts
  | none => false

/-- df['Date'] <= pd.to_datetime(b). -/
def leBound (b : Date) (v : Val) : Bool :=
  match cellTS v with
  | some ts => tsLE ts (b, ⟨0, 0, 0⟩)
  | none => false

def applyMaskList : List Bool → List Val → List Val
  | b :: ms, v :: vs =>
    if b then v :: applyMaskList ms vs else applyMaskList ms vs
  | _, _ => []

/-- df[mask]: keep the rows whose mask entry is True, in every column. -/
def applyMask (mask : List Bool) (t : Table) : Table :=
  t.map fun p => (p.1, applyMaskList mask p.2)

/-- df_filtered[df_filtered['Date'] OP bound]; a missing Date column raises
KeyError, modelled as the error arm. -/
def filterOn (t : Table) (keep : Val → Bool) : Except String Table :=
  match getCol t "Date" with
  | none => Except.error "KeyError: Date"
  | some dcol => Except.ok (applyMask (dcol.map keep) t)

/-- analysis.py filter_by_date_range (lines 175-198).  `if start_date:` is
Python truthiness, so None and "" both skip the bound;
pd.to_datetime(bound) has no errors='coerce' and raises on an unparseable
bound, modelled as the error arm. -/
def filter_by_date_range (df : Option Table)
    (start_date end_date : Option String) : Except String (Option Table) :=
  match df with
  | none => Except.ok none
  | some t =>
    let afterStart : Except String Table :=
      match start_date with
      | some s =>
        if s.isEmpty then Except.ok t
        else
          match parseDateTxt (myTrim s.data) with
          | some b => filterOn t (geBound b)
          | none => Except.error "ValueError: unparseable start_date"
      | none => Except.ok t
    match afterStart with
    | Except.error e => Except.error e
    | Except.ok t1 =>
      match end_date with
      | some s =>
        if s.isEmpty then Except.ok (some t1)
        else
          match parseDateTxt (myTrim s.data) with
          | some b =>
            match filterOn t1 (leBound b) with
            | Except.ok t2 => Except.ok (some t2)
            | Except.error e => Except.error e
          | none => Except.error "ValueError: unparseable end_date"
      | none => Except.ok (some t1)

/-- select_dtypes(include=[np.number]) membership for one column: float64 /
int64 columns hold only numbers and NaN.  (An all-NaN column that pandas
happens to type as float64 is also counted; the distinction is a dtype
artefact that no claim depends on.) -/
def isNumericCol (cells : List Val) : Bool :=
  cells.all fun v =>
    match v with
    | .vnum _ => true
    | .absent => true
    | _ => false

/-- Series.min() on a datetime column, skipping NaT; NaT when empty. -/
def minDate (cells : List Val) : Val :=
  cells.foldl
    (fun acc v =>
      match cellTS v with
      | none => acc
      | some ts =>
        match acc with
        | .vdt d t => if tsLE (d, t) ts then .vdt d t else .vdt ts.1 ts.2
        | _ => .vdt ts.1 ts.2)
    Val.absent

/-- Series.max() on a datetime column, skipping NaT; NaT when empty. -/
def maxDate (cells : List Val) : Val :=
  cells.foldl
    (fun acc v =>
      match cellTS v with
      | none => acc
      | some ts =>
        match acc with
        | .vdt d t => if tsLE ts (d, t) then .vdt d t else .vdt ts.1 ts.2
        | _ => .vdt ts.1 ts.2)
    Val.absent

def countAbsent (cells : List Val) : Nat :=
  (cells.filter (· = Val.absent)).length

/-- round(x, 2) (modelled as round-half-up at two decimals). -/
def round2 (q : ℚ) : ℚ := qMk ⌊q * 100 + 1 / 2⌋ 100

/-- One value of the summary dict. -/
inductive SVal where
  | count (n : Nat)
  | span (lo hi : Val)
  | pcts (l : List (String × ℚ))
  | names (l : List String)
deriving DecidableEq

/-- analysis.py get_data_summary (lines 109-132): {} for None, else the four
entries; df['Date'] raises KeyError when the column is missing. -/
def get_data_summary (df : Option Table) :
    Except String (List (String × SVal)) :=
  match df with
  | none => Except.ok []
  | some t =>
    match getCol t "Date" with
    | none => Except.error "KeyError: Date"
    | some dcol =>
      Except.ok
        [("total_records", SVal.count (nrows t)),
         ("date_range", SVal.span (minDate dcol) (maxDate dcol)),
         ("missing_data_percentage",
          SVal.pcts (t.map fun p =>
            (p.1, round2 (100 * (countAbsent p.2 : ℚ) / (nrows t : ℚ))))),
         ("numeric_columns",
          SVal.names ((t.filter fun p => isNumericCol p.2).map (·.1)))]

def insertAsc (v : Val) : List Val → List Val
  | [] => [v]
  | w :: l =>
    match cellTS v, cellTS w with
    | some a, some b =>
      if tsLE a b then v :: w :: l else w :: insertAsc v l
    | _, _ => v :: w :: l

def dedupAdj : List Val → List Val
  | [] => []
  | [v] => [v]
  | v :: w :: l => if v = w then dedupAdj (w :: l) else v :: dedupAdj (w :: l)

/-- groupby keys: the distinct non-null Date values in ascending order. -/
def groupKeys (dcol : List Val) : List Val :=
  dedupAdj ((dcol.filter fun v => (cellTS v).isSome).foldr insertAsc [])

/-- Series.mean() over the group: NaN-skipping; NaN for an empty group. -/
def groupMean (dcol cells : List Val) (key : Val) : Val :=
  let vals := (List.zip dcol cells).foldr
    (fun p acc =>
      if p.1 = key then
        match p.2 with
        | .vnum q => q :: acc
        | _ => acc
      else acc) []
  if vals.length = 0 then Val.absent
  else Val.vnum (vals.foldr (· + ·) 0 / (vals.length : ℚ))

/-- analysis.py get_daily_averages (lines 201-217): None in, None out; else
groupby('Date')[numeric].mean().reset_index() — Date first, then the mean of
every numeric column per day; a missing Date column raises KeyError. -/
def get_daily_averages (df : Option Table) : Except String (Option Table) :=
  match df with
  | none => Except.ok none
  | some t =>
    match getCol t "Date" with
    | none => Except.error "KeyError: Date"
    | some dcol =>
      let keys := groupKeys dcol
      Except.ok (some
        (("Date", keys) ::
          (t.filter fun p => isNumericCol p.2).map
            (fun p => (p.1, keys.map (groupMean dcol p.2)))))

theorem getCol_setCol_self (t : Table) (n : String) (v : List Val) :
    getCol (setCol t n v) n = some v := by
  induction t with
  | nil => simp [setCol, getCol]
  | cons p t ih =>
    obtain ⟨m, c⟩ := p
    by_cases h : m = n
    · subst h
      simp [setCol, getCol]
    · simp [setCol, getCol, h, ih]

theorem getCol_setCol_ne (t : Table) (n m : String) (v : List Val)
    (h : n ≠ m) : getCol (setCol t n v) m = getCol t m := by
  induction t with
  | nil => simp [setCol, getCol, h]
  | cons p t ih =>
    obtain ⟨a, c⟩ := p
    by_cases ha : a = n
    · subst ha
      simp [setCol, getCol, h]
    · simp [setCol, getCol, ha, ih]

theorem setCol_setCol (t : Table) (n : String) (v w : List Val) :
    setCol (setCol t n v) n w = setCol t n w := by
  induction t with
  | nil => simp [setCol]
  | cons p t ih =>
    obtain ⟨a, c⟩ := p
    by_cases ha : a = n
    · subst ha
      simp [setCol]
    · simp [setCol, ha, ih]

theorem setCol_eq_of_getCol (t : Table) (n : String) (v : List Val)
    (h : getCol t n = some v) : setCol t n v = t := by
  induction t with
  | nil => simp [getCol] at h
  | cons p t ih =>
    obtain ⟨a, c⟩ := p
    by_cases ha : a = n
    · subst ha
      simp [getCol] at h
      simp [setCol, h]
    · simp [getCol, ha] at h
      simp [setCol, ha, ih h]

theorem getCol_mapTable (f : Val → Val) (t : Table) (m : String) :
    getCol (mapTable f t) m = (getCol t m).map (List.map f) := by
  induction t with
  | nil => simp [mapTable, getCol]
  | cons p t ih =>
    obtain ⟨a, c⟩ := p
    by_cases ha : a = m
    · subst ha
      simp [mapTable, getCol]
    · simpa [mapTable, getCol, ha] using ih

theorem nrows_mapTable (f : Val → Val) (t : Table) :
    nrows (mapTable f t) = nrows t := by
  cases t with
  | nil => rfl
  | cons p t => simp [mapTable, nrows]

theorem nrows_setCol_len (t : Table) (n : String) (v c : List Val)
    (hc : getCol t n = some c) (hl : v.length = c.length) :
    nrows (setCol t n v) = nrows t := by
  induction t with
  | nil => simp [getCol] at hc
  | cons p t ih =>
    obtain ⟨a, cells⟩ := p
    by_cases ha : a = n
    · subst ha
      simp [getCol] at hc
      subst hc
      simp [setCol, nrows, hl]
    · simp [setCol, ha, nrows]

theorem nrows_setCol_none (t : Table) (n : String) (v : List Val)
    (hc : getCol t n = none) (ht : t ≠ []) :
    nrows (setCol t n v) = nrows t := by
  induction t with
  | nil => exact absurd rfl ht
  | cons p t ih =>
    obtain ⟨a, cells⟩ := p
    by_cases ha : a = n
    · subst ha
      simp [getCol] at hc
    · simp [setCol, ha, nrows]

theorem mapTable_id_of (t : Table)
    (h : ∀ p ∈ t, ∀ v ∈ p.2, replaceSentinel v = v) :
    mapTable replaceSentinel t = t := by
  induction t with
  | nil => rfl
  | cons p t ih =>
    obtain ⟨a, cells⟩ := p
    have h1 : cells.map replaceSentinel = cells := by
      rw [List.map_congr_left (g := id) (fun v hv => h (a, cells) (by simp) v hv)]
      exact List.map_id cells
    have h2 := ih (fun q hq v hv => h q (by simp [hq]) v hv)
    simp [mapTable] at h2 ⊢
    exact ⟨h1, h2⟩

/-- The generic fold underlying numericStep, for induction over the column
list. -/
def numericFold (cols : List String) (t : Table) : Table :=
  cols.foldl
    (fun acc col =>
      match getCol acc col with
      | some cells => setCol acc col (cells.map numericCell)
      | none => acc)
    t

theorem numericStep_eq_fold (t : Table) :
    numericStep t = numericFold numericColumns t := rfl

theorem getCol_numericFold_notMem (cols : List String) (t : Table)
    (m : String) (hm : m ∉ cols) :
    getCol (numericFold cols t) m = getCol t m := by
  induction cols generalizing t with
  | nil => rfl
  | cons c cols ih =>
    have hmc : c ≠ m := fun h => hm (by simp [h])
    have hm' : m ∉ cols := fun h => hm (by simp [h])
    cases hg : getCol t c with
    | none => simpa [numericFold, hg] using ih t hm'
    | some cells =>
      have := ih (setCol t c (cells.map numericCell)) hm'
      simpa [numericFold, hg, getCol_setCol_ne _ _ _ _ hmc] using this

theorem getCol_numericFold_mem (cols : List String) (t : Table)
    (m : String) (cells : List Val) (hm : m ∈ cols) (hnd : cols.Nodup)
    (hc : getCol t m = some cells) :
    getCol (numericFold cols t) m = some (cells.map numericCell) := by
  induction cols generalizing t with
  | nil => simp at hm
  | cons c cols ih =>
    rcases List.mem_cons.mp hm with h | h
    · subst h
      have hmnot : m ∉ cols := (List.nodup_cons.mp hnd).1
      have : getCol (setCol t m (cells.map numericCell)) m
          = some (cells.map numericCell) := getCol_setCol_self _ _ _
      simpa [numericFold, hc] using
        (getCol_numericFold_notMem cols _ m hmnot).trans this
    · have hnd' := (List.nodup_cons.mp hnd).2
      have hcm : c ≠ m := by
        rintro rfl
        exact (List.nodup_cons.mp hnd).1 h
      cases hg : getCol t c with
      | none => simpa [numericFold, hg] using ih _ h hnd' hc
      | some ccells =>
        have hc' : getCol (setCol t c (ccells.map numericCell)) m = some cells := by
          rwa [getCol_setCol_ne _ _ _ _ hcm]
        simpa [numericFold, hg] using ih _ h hnd' hc'

theorem numericFold_fixpoint (cols : List String) (t : Table)
    (h : ∀ col ∈ cols, ∀ cells, getCol t col = some cells →
      cells.map numericCell = cells) :
    numericFold cols t = t := by
  induction cols generalizing t with
  | nil => rfl
  | cons c cols ih =>
    cases hg : getCol t c with
    | none =>
      simp only [numericFold, List.foldl_cons, hg]
      exact ih t (fun col hcol cells hc => h col (by simp [hcol]) cells hc)
    | some cells =>
      have hmap : cells.map numericCell = cells := h c (by simp) cells hg
      have hset : setCol t c (cells.map numericCell) = t := by
        rw [hmap]
        exact setCol_eq_of_getCol _ _ _ hg
      simp only [numericFold, List.foldl_cons, hg, hset]
      exact ih t (fun col hcol cells hc => h col (by simp [hcol]) cells hc)

theorem nrows_numericFold (cols : List String) (t : Table) :
    nrows (numericFold cols t) = nrows t := by
  induction cols generalizing t with
  | nil => rfl
  | cons c cols ih =>
    cases hg : getCol t c with
    | none => simpa [numericFold, hg] using ih t
    | some cells =>
      have h1 : nrows (setCol t c (cells.map numericCell)) = nrows t :=
        nrows_setCol_len _ _ _ _ hg (by simp)
      simpa [numericFold, hg, h1] using ih (setCol t c (cells.map numericCell))

theorem isWS_of_digit (c : Char) (h : c.isDigit = true) : isWS c = false := by
  by_contra hw
  rw [Bool.not_eq_false] at hw
  simp only [isWS, Bool.or_eq_true, decide_eq_true_eq] at hw
  rcases hw with ((h1 | h1) | h1) | h1 <;> subst h1 <;> exact absurd h (by decide)

theorem digit_ne_of_lt (c x : Char) (h : c.isDigit = true)
    (hx : x.isDigit = false) : c ≠ x := by
  rintro rfl
  rw [h] at hx
  cases hx

theorem dropWhile_eq_self_of {p : Char → Bool} (l : List Char)
    (h : ∀ c ∈ l, p c = false) : l.dropWhile p = l := by
  cases l with
  | nil => rfl
  | cons c l =>
    rw [List.dropWhile_cons, h c (by simp)]
    simp

theorem myTrim_eq_self (l : List Char) (h : ∀ c ∈ l, isWS c = false) :
    myTrim l = l := by
  unfold myTrim
  rw [dropWhile_eq_self_of l h, dropWhile_eq_self_of _ (by
    intro c hc
    exact h c (List.mem_reverse.mp hc)), List.reverse_reverse]

theorem mapChar_eq_self (a b : Char) (l : List Char)
    (h : ∀ c ∈ l, c ≠ a) : mapChar a b l = l := by
  unfold mapChar
  rw [List.map_congr_left (g := id) (fun c hc => by simp [h c hc])]
  exact List.map_id l

theorem splitChar_not_mem (sep : Char) (l : List Char)
    (h : ∀ c ∈ l, c ≠ sep) : splitChar sep l = [l] := by
  induction l with
  | nil => rfl
  | cons c l ih =>
    have hc : c ≠ sep := h c (by simp)
    have := ih (fun x hx => h x (by simp [hx]))
    simp only [splitChar, this, if_neg hc]

theorem splitChar_append (sep : Char) (xs ys : List Char)
    (h : ∀ c ∈ xs, c ≠ sep) :
    splitChar sep (xs ++ sep :: ys) = xs :: splitChar sep ys := by
  induction xs with
  | nil => simp [splitChar]
  | cons x xs ih =>
    have hx : x ≠ sep := h x (by simp)
    have hr := ih (fun c hc => h c (by simp [hc]))
    simp only [List.cons_append, splitChar, List.append_eq, hr, if_neg hx]

theorem digitsToNat_replicate (z : Nat) (l : List Char) :
    digitsToNat (List.replicate z '0' ++ l) = digitsToNat l := by
  induction z with
  | zero => rfl
  | succ z ih =>
    have : charVal '0' = 0 := rfl
    simpa [List.replicate_succ, digitsToNat, this] using ih

theorem padTo_val (k : Nat) (n : Nat) :
    digitsToNat (padTo k (natDigits n)) = n := by
  unfold padTo
  rw [digitsToNat_replicate, natDigits_val]

theorem padTo_length (k : Nat) (l : List Char) (h : l.length ≤ k) :
    (padTo k l).length = k := by
  simp [padTo]
  omega

theorem padTo_digits (k : Nat) (l : List Char)
    (h : ∀ c ∈ l, c.isDigit = true) :
    ∀ c ∈ padTo k l, c.isDigit = true := by
  intro c hc
  rcases List.mem_append.mp hc with h1 | h1
  · have := List.eq_of_mem_replicate h1
    subst this
    decide
  · exact h c h1

theorem render2_spec (n : Nat) (h : n < 100) :
    digitsToNat (render2 n) = n ∧ (render2 n).length = 2
    ∧ ∀ c ∈ render2 n, c.isDigit = true := by
  refine ⟨padTo_val 2 n, ?_, padTo_digits _ _ (natDigits_digits n)⟩
  exact padTo_length _ _ (natDigits_length n 2 (by omega) (by norm_num; omega))

@[reducible] def timeValid (t : Time) : Prop :=
  t.hour ≤ 23 ∧ t.minute ≤ 59 ∧ t.second ≤ 59

@[reducible] def dateValid (d : Date) : Prop :=
  1 ≤ d.month ∧ d.month ≤ 12 ∧ 1 ≤ d.day ∧ d.day ≤ 31

theorem renderTime_shape (t : Time) :
    renderTime t
    = render2 t.hour ++ (':' :: (render2 t.minute ++ (':' :: render2 t.second))) := by
  simp [renderTime]

theorem renderTime_digits_or_colon (t : Time) (ht : timeValid t) :
    ∀ c ∈ renderTime t, c.isDigit = true ∨ c = ':' := by
  obtain ⟨h1, h2, h3⟩ := ht
  obtain ⟨_, _, hd1⟩ := render2_spec t.hour (by omega)
  obtain ⟨_, _, hd2⟩ := render2_spec t.minute (by omega)
  obtain ⟨_, _, hd3⟩ := render2_spec t.second (by omega)
  intro c hc
  rw [renderTime_shape] at hc
  rcases List.mem_append.mp hc with h | h
  · exact Or.inl (hd1 c h)
  · rcases List.mem_cons.mp h with h | h
    · exact Or.inr h
    · rcases List.mem_append.mp h with h | h
      · exact Or.inl (hd2 c h)
      · rcases List.mem_cons.mp h with h | h
        · exact Or.inr h
        · exact Or.inl (hd3 c h)

theorem parseField_render2 (n hi : Nat) (hn : n ≤ hi) (hhi : hi < 100) :
    parseField (render2 n) hi = some n := by
  obtain ⟨hv, hl, hd⟩ := render2_spec n (by omega)
  unfold parseField
  rw [if_pos]
  · rw [hv]
  · refine ⟨Or.inr hl, ?_, by rw [hv]; exact hn⟩
    exact List.all_eq_true.mpr (fun c hc => hd c hc)

theorem parseHMS_renderTime (t : Time) (ht : timeValid t) :
    parseHMS (renderTime t) = some t := by
  obtain ⟨h1, h2, h3⟩ := ht
  obtain ⟨_, _, hd1⟩ := render2_spec t.hour (by omega)
  obtain ⟨_, _, hd2⟩ := render2_spec t.minute (by omega)
  obtain ⟨_, _, hd3⟩ := render2_spec t.second (by omega)
  have hne1 : ∀ c ∈ render2 t.hour, c ≠ ':' :=
    fun c hc => digit_ne_of_lt c ':' (hd1 c hc) (by decide)
  have hne2 : ∀ c ∈ render2 t.minute, c ≠ ':' :=
    fun c hc => digit_ne_of_lt c ':' (hd2 c hc) (by decide)
  have hne3 : ∀ c ∈ render2 t.second, c ≠ ':' :=
    fun c hc => digit_ne_of_lt c ':' (hd3 c hc) (by decide)
  have hsplit : splitChar ':' (renderTime t)
      = [render2 t.hour, render2 t.minute, render2 t.second] := by
    rw [renderTime_shape]
    rw [splitChar_append ':' _ _ hne1, splitChar_append ':' _ _ hne2,
      splitChar_not_mem ':' _ hne3]
  unfold parseHMS
  rw [hsplit]
  simp [parseField_render2 _ _ h1 (by omega), parseField_render2 _ _ h2 (by omega),
    parseField_render2 _ _ h3 (by omega)]

theorem renderTime_no_ws (t : Time) (ht : timeValid t) :
    ∀ c ∈ renderTime t, isWS c = false := by
  intro c hc
  rcases renderTime_digits_or_colon t ht c hc with h | h
  · exact isWS_of_digit c h
  · subst h; rfl

theorem renderTime_no_dot (t : Time) (ht : timeValid t) :
    ∀ c ∈ renderTime t, c ≠ '.' := by
  intro c hc
  rcases renderTime_digits_or_colon t ht c hc with h | h
  · exact digit_ne_of_lt c '.' h (by decide)
  · subst h; decide

/-- The stage-2 round-trip: a valid time-of-day printed by str() re-enters
the chain unchanged. -/
theorem timeChain_renderTime (t : Time) (ht : timeValid t) :
    timeChain (renderTime t) = Val.vtime t := by
  unfold timeChain
  simp only [myTrim_eq_self _ (renderTime_no_ws t ht),
    mapChar_eq_self _ _ _ (renderTime_no_dot t ht),
    parseHMS_renderTime t ht]

theorem parseField_le (l : List Char) (hi v : Nat)
    (h : parseField l hi = some v) : v ≤ hi := by
  unfold parseField at h
  split at h
  · rename_i hcond
    cases h
    exact hcond.2.2
  · cases h

theorem parseHMS_valid (l : List Char) (t : Time)
    (h : parseHMS l = some t) : timeValid t := by
  unfold parseHMS at h
  split at h
  · simp only [Option.bind_eq_some, Option.some_inj] at h
    obtain ⟨hv, hhv, mv, hhm, sv, hhs, heq⟩ := h
    subst heq
    exact ⟨parseField_le _ _ _ hhv, parseField_le _ _ _ hhm,
      parseField_le _ _ _ hhs⟩
  · cases h

theorem parseHM_valid (l : List Char) (t : Time)
    (h : parseHM l = some t) : timeValid t := by
  unfold parseHM at h
  split at h
  · simp only [Option.bind_eq_some, Option.some_inj] at h
    obtain ⟨hv, hhv, mv, hhm, heq⟩ := h
    subst heq
    refine ⟨parseField_le _ _ _ hhv, parseField_le _ _ _ hhm, ?_⟩
    show (0 : Nat) ≤ 59
    omega
  · cases h

theorem parseTimeTxt_valid (l : List Char) (t : Time)
    (h : parseTimeTxt l = some t) : timeValid t := by
  unfold parseTimeTxt at h
  cases hh : parseHMS l with
  | none =>
    rw [hh] at h
    exact parseHM_valid _ _ h
  | some v =>
    rw [hh] at h
    simp only [Option.some_inj] at h
    subst h
    exact parseHMS_valid _ _ hh

/-- The time chain with its let-bindings expanded. -/
theorem timeChain_eq (s : List Char) :
    timeChain s =
      match parseHMS (mapChar '.' ':' (myTrim s)) with
      | some t => Val.vtime t
      | none =>
        match parseHM (mapChar '.' ':' (myTrim s)) with
        | some t => Val.vtime t
        | none =>
          match parseTimeTxt (myTrim s) with
          | some t => Val.vtime t
          | none => Val.absent := rfl

/-- Every value the time chain produces is a valid time-of-day or absent. -/
theorem timeChain_cases (s : List Char) :
    (∃ t, timeChain s = Val.vtime t ∧ timeValid t) ∨ timeChain s = Val.absent := by
  cases h1 : parseHMS (mapChar '.' ':' (myTrim s)) with
  | some v => exact Or.inl ⟨v, by rw [timeChain_eq, h1], parseHMS_valid _ _ h1⟩
  | none =>
    cases h2 : parseHM (mapChar '.' ':' (myTrim s)) with
    | some v => exact Or.inl ⟨v, by rw [timeChain_eq, h1, h2], parseHM_valid _ _ h2⟩
    | none =>
      cases h3 : parseTimeTxt (myTrim s) with
      | some v =>
        exact Or.inl ⟨v, by rw [timeChain_eq, h1, h2, h3], parseTimeTxt_valid _ _ h3⟩
      | none => exact Or.inr (by rw [timeChain_eq, h1, h2, h3])

theorem timeChain_valid (s : List Char) (t : Time)
    (h : timeChain s = Val.vtime t) : timeValid t := by
  rcases timeChain_cases s with ⟨u, hu, huv⟩ | habs
  · rw [h] at hu
    injection hu with h4
    rw [h4]
    exact huv
  · rw [h] at habs
    cases habs

theorem renderDate_shape (d : Date) :
    renderDate d
    = padTo 4 (natDigits d.year) ++ ('-' :: (render2 d.month ++ ('-' :: render2 d.day))) := by
  simp [renderDate]

theorem padTo_ne_nil (k : Nat) (l : List Char) (h : l ≠ []) :
    padTo k l ≠ [] := by
  unfold padTo
  intro hc
  rcases List.append_eq_nil.mp hc with ⟨_, h2⟩
  exact h h2

theorem parseYear_padTo (y : Nat) :
    parseYear (padTo 4 (natDigits y)) = some y := by
  unfold parseYear
  rw [if_pos ⟨padTo_ne_nil _ _ (natDigits_ne_nil y),
    List.all_eq_true.mpr (fun c hc => padTo_digits _ _ (natDigits_digits y) c hc)⟩]
  rw [padTo_val]

theorem renderDate_digits_or_dash (d : Date) (hd : dateValid d) :
    ∀ c ∈ renderDate d, c.isDigit = true ∨ c = '-' := by
  obtain ⟨h1, h2, h3, h4⟩ := hd
  obtain ⟨_, _, hd2⟩ := render2_spec d.month (by omega)
  obtain ⟨_, _, hd3⟩ := render2_spec d.day (by omega)
  have hy := padTo_digits 4 _ (natDigits_digits d.year)
  intro c hc
  rw [renderDate_shape] at hc
  rcases List.mem_append.mp hc with h | h
  · exact Or.inl (hy c h)
  · rcases List.mem_cons.mp h with h | h
    · exact Or.inr h
    · rcases List.mem_append.mp h with h | h
      · exact Or.inl (hd2 c h)
      · rcases List.mem_cons.mp h with h | h
        · exact Or.inr h
        · exact Or.inl (hd3 c h)

theorem parseMD_render2 (m d y : Nat) (h1 : 1 ≤ m) (h2 : m ≤ 12)
    (h3 : 1 ≤ d) (h4 : d ≤ 31) :
    parseMD (render2 m) (render2 d) y = some ⟨y, m, d⟩ := by
  unfold parseMD
  rw [parseField_render2 _ _ h2 (by omega), parseField_render2 _ _ h4 (by omega)]
  simp [h1, h3]

theorem parseDateTxt_renderDate (d : Date) (hd : dateValid d) :
    parseDateTxt (renderDate d) = some d := by
  obtain ⟨h1, h2, h3, h4⟩ := hd
  obtain ⟨_, _, hdm⟩ := render2_spec d.month (by omega)
  obtain ⟨_, _, hdd⟩ := render2_spec d.day (by omega)
  have hy := padTo_digits 4 _ (natDigits_digits d.year)
  have hne1 : ∀ c ∈ padTo 4 (natDigits d.year), c ≠ '-' :=
    fun c hc => digit_ne_of_lt c '-' (hy c hc) (by decide)
  have hne2 : ∀ c ∈ render2 d.month, c ≠ '-' :=
    fun c hc => digit_ne_of_lt c '-' (hdm c hc) (by decide)
  have hne3 : ∀ c ∈ render2 d.day, c ≠ '-' :=
    fun c hc => digit_ne_of_lt c '-' (hdd c hc) (by decide)
  have hsplit : splitChar '-' (renderDate d)
      = [padTo 4 (natDigits d.year), render2 d.month, render2 d.day] := by
    rw [renderDate_shape]
    rw [splitChar_append '-' _ _ hne1, splitChar_append '-' _ _ hne2,
      splitChar_not_mem '-' _ hne3]
  unfold parseDateTxt
  rw [hsplit]
  simp [parseYear_padTo, parseMD_render2 _ _ _ h1 h2 h3 h4]

theorem renderDate_no_space (d : Date) (hd : dateValid d) :
    ∀ c ∈ renderDate d, c ≠ ' ' := by
  intro c hc
  rcases renderDate_digits_or_dash d hd c hc with h | h
  · exact digit_ne_of_lt c ' ' h (by decide)
  · subst h; decide

theorem renderTime_no_space (t : Time) (ht : timeValid t) :
    ∀ c ∈ renderTime t, c ≠ ' ' := by
  intro c hc
  rcases renderTime_digits_or_colon t ht c hc with h | h
  · exact digit_ne_of_lt c ' ' h (by decide)
  · subst h; decide

/-- The derivation round-trip: a valid date rendered as %Y-%m-%d, a space,
and a valid time rendered by str() parse back to exactly that timestamp. -/
theorem parseDateTimeTxt_render (d : Date) (t : Time)
    (hd : dateValid d) (ht : timeValid t) :
    parseDateTimeTxt (renderDate d ++ ' ' :: renderTime t) = some (d, t) := by
  have hsplit : splitChar ' ' (renderDate d ++ ' ' :: renderTime t)
      = [renderDate d, renderTime t] := by
    rw [splitChar_append ' ' _ _ (renderDate_no_space d hd),
      splitChar_not_mem ' ' _ (renderTime_no_space t ht)]
  unfold parseDateTimeTxt
  rw [hsplit]
  have htt : parseTimeTxt (renderTime t) = some t := by
    unfold parseTimeTxt
    rw [parseHMS_renderTime t ht]
  simp [parseDateTxt_renderDate d hd, htt]

/-- combineCell on a valid date cell and valid time cell always succeeds and
reproduces its inputs. -/
theorem combineCell_valid (d : Date) (t : Time)
    (hd : dateValid d) (ht : timeValid t) :
    combineCell (Val.vdate d) (Val.vtime t) = Val.vdt d t := by
  unfold combineCell
  rw [if_pos (by exact ⟨by simp, by simp⟩)]
  have : strfDate (Val.vdate d) = renderDate d := rfl
  rw [this]
  have hp : pyStr (Val.vtime t) = renderTime t := rfl
  rw [hp, parseDateTimeTxt_render d t hd ht]

theorem combineCell_absent_left (tv : Val) :
    combineCell Val.absent tv = Val.absent := by
  unfold combineCell
  rw [if_neg]
  intro h
  exact h.1 rfl

theorem combineCell_absent_right (dv : Val) :
    combineCell dv Val.absent = Val.absent := by
  unfold combineCell
  rw [if_neg]
  intro h
  exact h.2 rfl

theorem breakAt_append (sep : Char) (xs ys : List Char)
    (h : ∀ c ∈ xs, c ≠ sep) :
    breakAt sep (xs ++ sep :: ys) = (xs, sep :: ys) := by
  induction xs with
  | nil => simp [breakAt]
  | cons x xs ih =>
    have hx : x ≠ sep := h x (by simp)
    have hr := ih (fun c hc => h c (by simp [hc]))
    simp only [List.cons_append, breakAt, List.append_eq, hr, if_neg hx]

theorem qMk_den_dvd (n : Int) (d : Nat) (hd : d ≠ 0) : (qMk n d).den ∣ d := by
  have h1 : qMk n d = Rat.divInt n (d : Int) := by
    rw [qMk_eq_div n d hd, Rat.divInt_eq_div]
    norm_cast
  have h2 := Rat.den_dvd n (d : Int)
  rw [← h1] at h2
  exact_mod_cast h2

/-- parseNum with its let-bindings expanded. -/
theorem parseNum_eq (l : List Char) :
    parseNum l =
      match breakAt '.' (signSplit (myTrim l)).2 with
      | (ip, []) =>
        if ip ≠ [] ∧ allDigits ip then
          some (qMk (if (signSplit (myTrim l)).1 then -(digitsToNat ip : Int)
            else (digitsToNat ip : Int)) 1)
        else none
      | (ip, _ :: fp) =>
        if allDigits ip ∧ allDigits fp ∧ (ip ≠ [] ∨ fp ≠ []) then
          some (qMk (if (signSplit (myTrim l)).1 then
              -((digitsToNat ip * 10 ^ fp.length + digitsToNat fp : Nat) : Int)
            else ((digitsToNat ip * 10 ^ fp.length + digitsToNat fp : Nat) : Int))
            (10 ^ fp.length))
        else none := rfl

/-- Every rational that parseNum can return has a denominator dividing a
power of ten. -/
theorem parseNum_den (l : List Char) (q : ℚ) (h : parseNum l = some q) :
    ∃ L, q.den ∣ 10 ^ L := by
  rw [parseNum_eq] at h
  split at h
  · split at h
    · injection h with h
      subst h
      exact ⟨0, by simpa using qMk_den_dvd _ 1 (by norm_num)⟩
    · cases h
  · split at h
    · rename_i ip x fp hmatch hcond
      injection h with h
      subst h
      exact ⟨fp.length, qMk_den_dvd _ _ (by positivity)⟩
    · cases h

theorem dvd_pow_ten_self (d L : Nat) (hd : d ≠ 0) (h : d ∣ 10 ^ L) :
    d ∣ 10 ^ d := by
  have h10 : (10 : Nat) = 2 * 5 := by norm_num
  rw [h10, mul_pow] at h
  obtain ⟨y, z, hy, hz, hyz⟩ := Nat.dvd_mul.mp h
  obtain ⟨i, hi, rfl⟩ := (Nat.dvd_prime_pow Nat.prime_two).mp hy
  obtain ⟨j, hj, rfl⟩ := (Nat.dvd_prime_pow Nat.prime_five).mp hz
  subst hyz
  have hpi : (0 : Nat) < 2 ^ i := pow_pos (by norm_num) i
  have hpj : (0 : Nat) < 5 ^ j := pow_pos (by norm_num) j
  have hi2 : 2 ^ i ≤ 2 ^ i * 5 ^ j := Nat.le_mul_of_pos_right _ hpj
  have hj2 : 5 ^ j ≤ 2 ^ i * 5 ^ j := Nat.le_mul_of_pos_left _ hpi
  have hii : i < 2 ^ i := Nat.lt_two_pow i
  have hjj : j < 5 ^ j := Nat.lt_pow_self (by norm_num) j
  rw [h10, mul_pow]
  exact mul_dvd_mul (pow_dvd_pow 2 (by omega)) (pow_dvd_pow 5 (by omega))

theorem renderQ_shape (q : ℚ) :
    renderQ q
    = (if q.num < 0 then ['-'] else [])
      ++ (natDigits (q.num.natAbs * (10 ^ q.den / q.den) / 10 ^ q.den)
      ++ '.' :: padTo q.den
        (natDigits (q.num.natAbs * (10 ^ q.den / q.den) % 10 ^ q.den))) := by
  simp [renderQ, padTo]

theorem renderQ_chars (q : ℚ) :
    ∀ c ∈ renderQ q, c.isDigit = true ∨ c = '-' ∨ c = '.' := by
  intro c hc
  rw [renderQ_shape] at hc
  rcases List.mem_append.mp hc with h | h
  · right
    left
    by_cases hn : q.num < 0
    · rw [if_pos hn] at h
      simpa using h
    · rw [if_neg hn] at h
      simp at h
  · rcases List.mem_append.mp h with h | h
    · exact Or.inl (natDigits_digits _ c h)
    · rcases List.mem_cons.mp h with h | h
      · exact Or.inr (Or.inr h)
      · exact Or.inl (padTo_digits _ _ (natDigits_digits _) c h)

theorem renderQ_no_ws (q : ℚ) : ∀ c ∈ renderQ q, isWS c = false := by
  intro c hc
  rcases renderQ_chars q c hc with h | h | h
  · exact isWS_of_digit c h
  · subst h; rfl
  · subst h; rfl

theorem parseNum_shape (neg : Bool) (ip fp k : Nat) (hk : 1 ≤ k)
    (hfp : fp < 10 ^ k) :
    parseNum ((if neg then ['-'] else [])
        ++ (natDigits ip ++ '.' :: padTo k (natDigits fp)))
    = some (qMk (if neg then -((ip * 10 ^ k + fp : Nat) : Int)
        else ((ip * 10 ^ k + fp : Nat) : Int)) (10 ^ k)) := by
  have hlen : (natDigits fp).length ≤ k := natDigits_length fp k hk hfp
  have hdip := natDigits_digits ip
  have hdfp := padTo_digits k _ (natDigits_digits fp)
  have hlenp : (padTo k (natDigits fp)).length = k := padTo_length _ _ hlen
  have hnw : ∀ c ∈ (if neg then ['-'] else [])
      ++ (natDigits ip ++ '.' :: padTo k (natDigits fp)), isWS c = false := by
    intro c hc
    rcases List.mem_append.mp hc with h | h
    · cases neg
      · simp at h
      · simp at h
        subst h
        rfl
    · rcases List.mem_append.mp h with h | h
      · exact isWS_of_digit c (hdip c h)
      · rcases List.mem_cons.mp h with h | h
        · subst h; rfl
        · exact isWS_of_digit c (hdfp c h)
  have hbreak : breakAt '.' (natDigits ip ++ '.' :: padTo k (natDigits fp))
      = (natDigits ip, '.' :: padTo k (natDigits fp)) :=
    breakAt_append '.' _ _
      (fun c hc => digit_ne_of_lt c '.' (hdip c hc) (by decide))
  have hsgn : signSplit ((if neg then ['-'] else [])
      ++ (natDigits ip ++ '.' :: padTo k (natDigits fp)))
      = (neg, natDigits ip ++ '.' :: padTo k (natDigits fp)) := by
    cases neg
    · obtain ⟨c0, cs, hcons⟩ := List.exists_cons_of_ne_nil (natDigits_ne_nil ip)
      have hc0 : c0.isDigit = true := hdip c0 (by rw [hcons]; simp)
      simp only [if_neg (by simp : ¬(false = true))]
      rw [List.nil_append, hcons, List.cons_append, signSplit]
      rw [if_neg (digit_ne_of_lt c0 '-' hc0 (by decide)),
        if_neg (digit_ne_of_lt c0 '+' hc0 (by decide))]
    · simp [signSplit]
  rw [parseNum_eq, myTrim_eq_self _ hnw, hsgn]
  simp only [hbreak]
  rw [if_pos]
  · have hv1 : digitsToNat (natDigits ip) = ip := natDigits_val ip
    have hv2 : digitsToNat (padTo k (natDigits fp)) = fp := padTo_val k fp
    rw [hv1, hv2, hlenp]
  · refine ⟨List.all_eq_true.mpr hdip, List.all_eq_true.mpr hdfp, Or.inl (natDigits_ne_nil ip)⟩

/-- The str()/float() round-trip on any rational with a power-of-ten-smooth
denominator — exactly the guarantee float repr gives the source. -/
theorem parseNum_renderQ (q : ℚ) (hsm : q.den ∣ 10 ^ q.den) :
    parseNum (renderQ q) = some q := by
  have hk0 : q.den ≠ 0 := q.den_nz
  have hk1 : 1 ≤ q.den := Nat.pos_of_ne_zero hk0
  have hc : q.den * (10 ^ q.den / q.den) = 10 ^ q.den := Nat.mul_div_cancel' hsm
  have hpow : (0 : Nat) < 10 ^ q.den := pow_pos (by norm_num) q.den
  have hcne : 10 ^ q.den / q.den ≠ 0 := by
    intro h0
    rw [h0, mul_zero] at hc
    omega
  have hfplt : q.num.natAbs * (10 ^ q.den / q.den) % 10 ^ q.den < 10 ^ q.den :=
    Nat.mod_lt _ hpow
  have hshape := parseNum_shape (decide (q.num < 0))
    (q.num.natAbs * (10 ^ q.den / q.den) / 10 ^ q.den)
    (q.num.natAbs * (10 ^ q.den / q.den) % 10 ^ q.den)
    q.den hk1 hfplt
  have hrw : renderQ q
      = (if decide (q.num < 0) then ['-'] else [])
        ++ (natDigits (q.num.natAbs * (10 ^ q.den / q.den) / 10 ^ q.den)
        ++ '.' :: padTo q.den
          (natDigits (q.num.natAbs * (10 ^ q.den / q.den) % 10 ^ q.den))) := by
    rw [renderQ_shape]
    by_cases hn : q.num < 0
    · rw [if_pos hn, if_pos (by simpa using hn)]
    · rw [if_neg hn, if_neg (by simpa using hn)]
  rw [hrw, hshape]
  congr 1
  have hdm : q.num.natAbs * (10 ^ q.den / q.den) / 10 ^ q.den * 10 ^ q.den
      + q.num.natAbs * (10 ^ q.den / q.den) % 10 ^ q.den
      = q.num.natAbs * (10 ^ q.den / q.den) := by
    rw [Nat.mul_comm (q.num.natAbs * (10 ^ q.den / q.den) / 10 ^ q.den) (10 ^ q.den)]
    exact Nat.div_add_mod _ _
  have hd0 : ((q.den : ℕ) : ℚ) ≠ 0 := Nat.cast_ne_zero.mpr q.den_nz
  have hqden : q * ((q.den : ℕ) : ℚ) = ((q.num : ℤ) : ℚ) := by
    nth_rewrite 1 [← Rat.num_div_den q]
    exact div_mul_cancel₀ _ hd0
  have hYne : ((10 ^ q.den : ℕ) : ℚ) ≠ 0 := Nat.cast_ne_zero.mpr (by positivity)
  have hY : ((10 ^ q.den : ℕ) : ℚ)
      = ((q.den : ℕ) : ℚ) * ((10 ^ q.den / q.den : ℕ) : ℚ) := by
    rw [← Nat.cast_mul, hc]
  have hAC : (((q.num.natAbs * (10 ^ q.den / q.den) : ℕ)) : ℤ)
      = (q.num.natAbs : ℤ) * ((10 ^ q.den / q.den : ℕ) : ℤ) := by
    push_cast
    ring
  by_cases hn : q.num < 0
  · rw [if_pos (by simpa using hn)]
    have hZ : -((((q.num.natAbs * (10 ^ q.den / q.den) : ℕ)) : ℤ))
        = q.num * ((10 ^ q.den / q.den : ℕ) : ℤ) := by
      rw [hAC]
      have h2 : (q.num.natAbs : ℤ) = -q.num := by omega
      rw [h2]
      ring
    rw [hdm, qMk_eq_div _ _ (by positivity), div_eq_iff hYne, hY, ← mul_assoc,
      hqden, hZ]
    generalize (10 ^ q.den / q.den : ℕ) = C
    push_cast
    ring
  · rw [if_neg (by simpa using hn)]
    have hZ : ((((q.num.natAbs * (10 ^ q.den / q.den) : ℕ)) : ℤ))
        = q.num * ((10 ^ q.den / q.den : ℕ) : ℤ) := by
      rw [hAC]
      have h2 : (q.num.natAbs : ℤ) = q.num := by omega
      rw [h2]
    rw [hdm, qMk_eq_div _ _ (by positivity), div_eq_iff hYne, hY, ← mul_assoc,
      hqden, hZ]
    generalize (10 ^ q.den / q.den : ℕ) = C
    push_cast
    ring

/-- Round-trip on the parse image: what to_numeric produced, str() and
to_numeric reproduce. -/
theorem parseNum_roundtrip (l : List Char) (q : ℚ) (h : parseNum l = some q) :
    parseNum (renderQ q) = some q := by
  obtain ⟨L, hL⟩ := parseNum_den l q h
  exact parseNum_renderQ q (dvd_pow_ten_self _ L q.den_nz hL)

theorem map_idem (f : Val → Val) (hf : ∀ v, f (f v) = f v) (c : List Val) :
    (c.map f).map f = c.map f := by
  rw [List.map_map]
  exact List.map_congr_left (fun v _ => hf v)

theorem dateStageCell_idem (v : Val) :
    dateStageCell (dateStageCell v) = dateStageCell v := by
  cases v with
  | vstr s =>
    cases h : parseDateTxt (myTrim s.data) with
    | none => simp [dateStageCell, h]
    | some d => simp [dateStageCell, h]
  | vnum q => rfl
  | vdate d => rfl
  | vtime t => rfl
  | vdt d t => rfl
  | absent => rfl

theorem timeStageCell_idem (v : Val) :
    timeStageCell (timeStageCell v) = timeStageCell v := by
  rcases timeChain_cases (pyStr v) with ⟨t, ht, hv⟩ | habs
  · unfold timeStageCell
    rw [ht]
    show timeChain (renderTime t) = Val.vtime t
    exact timeChain_renderTime t hv
  · unfold timeStageCell
    rw [habs]
    decide

theorem renderQ_no_comma (q : ℚ) :
    mapChar ',' '.' (renderQ q) = renderQ q :=
  mapChar_eq_self _ _ _ (fun c hc => by
    rcases renderQ_chars q c hc with hd | hd | hd
    · exact digit_ne_of_lt c ',' hd (by decide)
    · subst hd; decide
    · subst hd; decide)

theorem numericCell_idem (v : Val) :
    numericCell (numericCell v) = numericCell v := by
  cases h : parseNum (mapChar ',' '.' (pyStr v)) with
  | none =>
    have h1 : numericCell v = Val.absent := by
      unfold numericCell
      rw [h]
    rw [h1]
    decide
  | some q =>
    have h1 : numericCell v = Val.vnum q := by
      unfold numericCell
      rw [h]
    rw [h1]
    unfold numericCell
    show (match parseNum (mapChar ',' '.' (renderQ q)) with
      | some q' => Val.vnum q' | none => Val.absent) = Val.vnum q
    rw [renderQ_no_comma, parseNum_roundtrip _ q h]

theorem getCol_dateStep (t : Table) :
    getCol (dateStep t) "Date" = (getCol t "Date").map (List.map dateStageCell) := by
  unfold dateStep
  cases h : getCol t "Date" with
  | none => simp [h]
  | some c => simp [getCol_setCol_self]

theorem getCol_dateStep_ne (t : Table) (m : String) (hm : m ≠ "Date") :
    getCol (dateStep t) m = getCol t m := by
  unfold dateStep
  cases h : getCol t "Date" with
  | none => rfl
  | some c => exact getCol_setCol_ne _ _ _ _ (fun hc => hm hc.symm)

theorem getCol_timeStep (t : Table) :
    getCol (timeStep t) "Time" = (getCol t "Time").map (List.map timeStageCell) := by
  unfold timeStep
  cases h : getCol t "Time" with
  | none => simp [h]
  | some c => simp [getCol_setCol_self]

theorem getCol_timeStep_ne (t : Table) (m : String) (hm : m ≠ "Time") :
    getCol (timeStep t) m = getCol t m := by
  unfold timeStep
  cases h : getCol t "Time" with
  | none => rfl
  | some c => exact getCol_setCol_ne _ _ _ _ (fun hc => hm hc.symm)

theorem getCol_initStep_ne (t : Table) (m : String) (hm : m ≠ "DateTime") :
    getCol (initStep t) m = getCol t m :=
  getCol_setCol_ne _ _ _ _ (fun hc => hm hc.symm)

theorem getCol_deriveStep_ne (t : Table) (m : String) (hm : m ≠ "DateTime") :
    getCol (deriveStep t) m = getCol t m := by
  unfold deriveStep
  cases h1 : getCol t "Date" with
  | none => rfl
  | some dcol =>
    cases h2 : getCol t "Time" with
    | none => rfl
    | some tcol => exact getCol_setCol_ne _ _ _ _ (fun hc => hm hc.symm)

theorem getCol_aliasStep_ne (t : Table) (m : String) (hm : m ≠ "Datetime") :
    getCol (aliasStep t) m = getCol t m :=
  getCol_setCol_ne _ _ _ _ (fun hc => hm hc.symm)

theorem getCol_numericFold_none (cols : List String) (t : Table) (m : String)
    (hc : getCol t m = none) : getCol (numericFold cols t) m = none := by
  induction cols generalizing t with
  | nil => exact hc
  | cons c cols ih =>
    by_cases hcm : c = m
    · subst hcm
      cases hg : getCol t c with
      | none => simpa [numericFold, hg] using ih t hc
      | some cells => rw [hg] at hc; cases hc
    · cases hg : getCol t c with
      | none => simpa [numericFold, hg] using ih t hc
      | some cells =>
        have : getCol (setCol t c (cells.map numericCell)) m = none := by
          rwa [getCol_setCol_ne _ _ _ _ hcm]
        simpa [numericFold, hg] using ih _ this

theorem nrows_setCol_val_eq (t : Table) (n : String) (v : List Val)
    (hl : v.length = nrows t) : nrows (setCol t n v) = nrows t := by
  cases t with
  | nil =>
    simp [nrows] at hl
    simp [setCol, nrows, hl]
  | cons p t =>
    obtain ⟨a, c⟩ := p
    by_cases ha : a = n
    · subst ha
      simp [setCol, nrows]
      simpa [nrows] using hl
    · simp [setCol, ha, nrows]

/-- The pipeline state has no numeric sentinel left. -/
@[reducible] def sentinelFree (t : Table) : Prop :=
  ∀ p ∈ t, ∀ v ∈ p.2, v ≠ Val.vnum (-200)

theorem replaceStep_of_sentinelFree (t : Table) (h : sentinelFree t) :
    replaceStep t = t :=
  mapTable_id_of t (fun p hp v hv => by
    unfold replaceSentinel
    rw [if_neg (h p hp v hv)])

theorem cleanBody_def (t : Table) :
    cleanBody t
    = numericStep (aliasStep (deriveStep (initStep
        (timeStep (dateStep (replaceStep t)))))) := rfl

theorem getCol_numericFold_map (cols : List String) (t : Table) (m : String)
    (hm : m ∈ cols) (hnd : cols.Nodup) :
    getCol (numericFold cols t) m = (getCol t m).map (List.map numericCell) := by
  cases hc : getCol t m with
  | none => simp [getCol_numericFold_none cols t m hc]
  | some cells => simp [getCol_numericFold_mem cols t m cells hm hnd hc]

/-- The Date column of the cleaned table is the per-value parse of the
post-replace Date column. -/
theorem cleanBody_date (t : Table) :
    getCol (cleanBody t) "Date"
    = (getCol (replaceStep t) "Date").map (List.map dateStageCell) := by
  rw [cleanBody_def, numericStep_eq_fold,
    getCol_numericFold_notMem _ _ _ (by decide),
    getCol_aliasStep_ne _ _ (by decide),
    getCol_deriveStep_ne _ _ (by decide),
    getCol_initStep_ne _ _ (by decide),
    getCol_timeStep_ne _ _ (by decide),
    getCol_dateStep]

/-- The Time column of the cleaned table is the per-value chain of the
post-replace Time column. -/
theorem cleanBody_time (t : Table) :
    getCol (cleanBody t) "Time"
    = (getCol (replaceStep t) "Time").map (List.map timeStageCell) := by
  rw [cleanBody_def, numericStep_eq_fold,
    getCol_numericFold_notMem _ _ _ (by decide),
    getCol_aliasStep_ne _ _ (by decide),
    getCol_deriveStep_ne _ _ (by decide),
    getCol_initStep_ne _ _ (by decide),
    getCol_timeStep,
    getCol_dateStep_ne _ _ (by decide)]

/-- The DateTime column of the cleaned table: row-wise combination when both
source columns exist, the all-NaT initialization otherwise. -/
theorem cleanBody_dt (t : Table) :
    getCol (cleanBody t) "DateTime"
    = match getCol (cleanBody t) "Date", getCol (cleanBody t) "Time" with
      | some dcol, some tcol => some (List.zipWith combineCell dcol tcol)
      | _, _ =>
        some (List.replicate (nrows (timeStep (dateStep (replaceStep t))))
          Val.absent) := by
  have hDate : getCol (cleanBody t) "Date"
      = getCol (initStep (timeStep (dateStep (replaceStep t)))) "Date" := by
    rw [cleanBody_def, numericStep_eq_fold,
      getCol_numericFold_notMem _ _ _ (by decide),
      getCol_aliasStep_ne _ _ (by decide),
      getCol_deriveStep_ne _ _ (by decide)]
  have hTime : getCol (cleanBody t) "Time"
      = getCol (initStep (timeStep (dateStep (replaceStep t)))) "Time" := by
    rw [cleanBody_def, numericStep_eq_fold,
      getCol_numericFold_notMem _ _ _ (by decide),
      getCol_aliasStep_ne _ _ (by decide),
      getCol_deriveStep_ne _ _ (by decide)]
  have hDT : getCol (cleanBody t) "DateTime"
      = getCol (deriveStep (initStep (timeStep (dateStep (replaceStep t))))) "DateTime" := by
    rw [cleanBody_def, numericStep_eq_fold,
      getCol_numericFold_notMem _ _ _ (by decide),
      getCol_aliasStep_ne _ _ (by decide)]
  rw [hDT, hDate, hTime]
  unfold deriveStep
  cases hd : getCol (initStep (timeStep (dateStep (replaceStep t)))) "Date" with
  | some dcol =>
    cases ht : getCol (initStep (timeStep (dateStep (replaceStep t)))) "Time" with
    | some tcol => simp [getCol_setCol_self]
    | none =>
      unfold initStep
      simp [getCol_setCol_self]
  | none =>
    unfold initStep
    simp [getCol_setCol_self]

/-- DateTime and its alias both exist and hold the same cells. -/
theorem cleanBody_alias (t : Table) :
    ∃ v, getCol (cleanBody t) "DateTime" = some v
      ∧ getCol (cleanBody t) "Datetime" = some v := by
  have hsome : ∃ v, getCol (deriveStep (initStep
      (timeStep (dateStep (replaceStep t))))) "DateTime" = some v := by
    unfold deriveStep
    cases hd : getCol (initStep (timeStep (dateStep (replaceStep t)))) "Date" with
    | some dcol =>
      cases ht : getCol (initStep (timeStep (dateStep (replaceStep t)))) "Time" with
      | some tcol => exact ⟨_, getCol_setCol_self _ _ _⟩
      | none => exact ⟨_, getCol_setCol_self _ _ _⟩
    | none => exact ⟨_, getCol_setCol_self _ _ _⟩
  obtain ⟨v, hv⟩ := hsome
  refine ⟨v, ?_, ?_⟩
  · rw [cleanBody_def, numericStep_eq_fold,
      getCol_numericFold_notMem _ _ _ (by decide),
      getCol_aliasStep_ne _ _ (by decide), hv]
  · rw [cleanBody_def, numericStep_eq_fold,
      getCol_numericFold_notMem _ _ _ (by decide)]
    unfold aliasStep
    rw [hv]
    exact getCol_setCol_self _ _ _

set_option maxHeartbeats 1000000 in
/-- When the derivation was skipped, the cleaned table keeps the row count of
the stage the all-NaT column was created at. -/
theorem cleanBody_nrows_else (t : Table)
    (h : getCol (cleanBody t) "Date" = none ∨ getCol (cleanBody t) "Time" = none) :
    nrows (cleanBody t) = nrows (timeStep (dateStep (replaceStep t))) := by
  have hDate : getCol (cleanBody t) "Date"
      = getCol (initStep (timeStep (dateStep (replaceStep t)))) "Date" := by
    rw [cleanBody_def, numericStep_eq_fold,
      getCol_numericFold_notMem _ _ _ (by decide),
      getCol_aliasStep_ne _ _ (by decide),
      getCol_deriveStep_ne _ _ (by decide)]
  have hTime : getCol (cleanBody t) "Time"
      = getCol (initStep (timeStep (dateStep (replaceStep t)))) "Time" := by
    rw [cleanBody_def, numericStep_eq_fold,
      getCol_numericFold_notMem _ _ _ (by decide),
      getCol_aliasStep_ne _ _ (by decide),
      getCol_deriveStep_ne _ _ (by decide)]
  have hskip : deriveStep (initStep (timeStep (dateStep (replaceStep t))))
      = initStep (timeStep (dateStep (replaceStep t))) := by
    unfold deriveStep
    rcases h with h | h
    · rw [hDate] at h
      rw [h]
    · rw [hTime] at h
      cases hd : getCol (initStep (timeStep (dateStep (replaceStep t)))) "Date" with
      | none => rfl
      | some dcol => rw [h]
  have hn4 : nrows (initStep (timeStep (dateStep (replaceStep t))))
      = nrows (timeStep (dateStep (replaceStep t))) := by
    unfold initStep
    exact nrows_setCol_val_eq _ _ _ (by simp)
  have hvlen : ∀ v, getCol (deriveStep (initStep (timeStep (dateStep (replaceStep t)))))
      "DateTime" = some v → v.length = nrows (timeStep (dateStep (replaceStep t))) := by
    intro v hv
    rw [hskip] at hv
    unfold initStep at hv
    rw [getCol_setCol_self] at hv
    rw [Option.some_inj] at hv
    rw [← hv]
    simp
  rw [cleanBody_def, numericStep_eq_fold, nrows_numericFold]
  unfold aliasStep
  cases hv : getCol (deriveStep (initStep (timeStep (dateStep (replaceStep t))))) "DateTime" with
  | none =>
    rw [hskip] at hv
    unfold initStep at hv
    rw [getCol_setCol_self] at hv
    cases hv
  | some v =>
    have hlen := hvlen v hv
    rw [Option.getD_some, hskip,
      nrows_setCol_val_eq _ _ _ (hlen.trans hn4.symm), hn4]

/-- Cleaning an already-cleaned table changes nothing, provided the cleaned
table carries no numeric -200 left (which the comma-decimal sentinel slip can
produce): the replace pass is then the identity and every per-column stage is
idempotent on its own output. -/
theorem cleanBody_idem (t : Table) (hs : sentinelFree (cleanBody t)) :
    cleanBody (cleanBody t) = cleanBody t := by
  have h1 : replaceStep (cleanBody t) = cleanBody t :=
    replaceStep_of_sentinelFree _ hs
  have h2 : dateStep (cleanBody t) = cleanBody t := by
    unfold dateStep
    cases hd : getCol (cleanBody t) "Date" with
    | none => rfl
    | some dcol =>
      have hchar := cleanBody_date t
      rw [hd] at hchar
      cases hc1 : getCol (replaceStep t) "Date" with
      | none =>
        rw [hc1] at hchar
        cases hchar
      | some c1 =>
        rw [hc1] at hchar
        rw [Option.map_some', Option.some_inj] at hchar
        rw [hchar] at hd
        rw [hchar]
        show setCol (cleanBody t) "Date"
          (List.map dateStageCell (List.map dateStageCell c1)) = cleanBody t
        rw [map_idem _ dateStageCell_idem]
        exact setCol_eq_of_getCol _ _ _ hd
  have h3 : timeStep (cleanBody t) = cleanBody t := by
    unfold timeStep
    cases hd : getCol (cleanBody t) "Time" with
    | none => rfl
    | some tcol =>
      have hchar := cleanBody_time t
      rw [hd] at hchar
      cases hc1 : getCol (replaceStep t) "Time" with
      | none =>
        rw [hc1] at hchar
        cases hchar
      | some c1 =>
        rw [hc1] at hchar
        rw [Option.map_some', Option.some_inj] at hchar
        rw [hchar] at hd
        rw [hchar]
        show setCol (cleanBody t) "Time"
          (List.map timeStageCell (List.map timeStageCell c1)) = cleanBody t
        rw [map_idem _ timeStageCell_idem]
        exact setCol_eq_of_getCol _ _ _ hd
  have h45 : deriveStep (initStep (cleanBody t)) = cleanBody t := by
    have hDT := cleanBody_dt t
    unfold deriveStep
    rw [getCol_initStep_ne (cleanBody t) "Date" (by decide),
      getCol_initStep_ne (cleanBody t) "Time" (by decide)]
    cases hd : getCol (cleanBody t) "Date" with
    | some dcol =>
      cases ht : getCol (cleanBody t) "Time" with
      | some tcol =>
        rw [hd, ht] at hDT
        unfold initStep
        show setCol (setCol (cleanBody t) "DateTime"
            (List.replicate (nrows (cleanBody t)) Val.absent)) "DateTime"
            (List.zipWith combineCell dcol tcol) = cleanBody t
        rw [setCol_setCol]
        exact setCol_eq_of_getCol _ _ _ hDT
      | none =>
        rw [hd, ht] at hDT
        have hnr := cleanBody_nrows_else t (Or.inr ht)
        unfold initStep
        show setCol (cleanBody t) "DateTime"
            (List.replicate (nrows (cleanBody t)) Val.absent) = cleanBody t
        rw [hnr]
        exact setCol_eq_of_getCol _ _ _ hDT
    | none =>
      rw [hd] at hDT
      have hnr := cleanBody_nrows_else t (Or.inl hd)
      unfold initStep
      show setCol (cleanBody t) "DateTime"
          (List.replicate (nrows (cleanBody t)) Val.absent) = cleanBody t
      rw [hnr]
      exact setCol_eq_of_getCol _ _ _ hDT
  have h6 : aliasStep (cleanBody t) = cleanBody t := by
    obtain ⟨v, hdt, hal⟩ := cleanBody_alias t
    unfold aliasStep
    rw [hdt, Option.getD_some]
    exact setCol_eq_of_getCol _ _ _ hal
  have h7 : numericStep (cleanBody t) = cleanBody t := by
    rw [numericStep_eq_fold]
    apply numericFold_fixpoint
    intro col hcol cells hc
    have hchar : getCol (cleanBody t) col
        = (getCol (aliasStep (deriveStep (initStep
            (timeStep (dateStep (replaceStep t)))))) col).map (List.map numericCell) := by
      rw [cleanBody_def, numericStep_eq_fold]
      exact getCol_numericFold_map _ _ _ hcol (by decide)
    rw [hc] at hchar
    cases hc6 : getCol (aliasStep (deriveStep (initStep
        (timeStep (dateStep (replaceStep t)))))) col with
    | none =>
      rw [hc6] at hchar
      cases hchar
    | some c6 =>
      rw [hc6] at hchar
      rw [Option.map_some', Option.some_inj] at hchar
      rw [hchar]
      exact map_idem _ numericCell_idem c6
  calc cleanBody (cleanBody t)
      = numericStep (aliasStep (deriveStep (initStep
          (timeStep (dateStep (replaceStep (cleanBody t))))))) := rfl
    _ = cleanBody t := by rw [h1, h2, h3, h45, h6, h7]

theorem tsLE_refl (a : Date × Time) : tsLE a a = true := by
  unfold tsLE
  simp

/-- C1: the claim says no cell of the thirteen measurement columns ever
equals -200 after clean_data, even when the raw cell is the comma-decimal
string "-200,0".  The code violates this: replace(-200, NaN) at line 55 runs
before the comma-decimal coercion of lines 100-104 and matches by numeric
value only, so the string sentinel passes replace unharmed and is then
coerced to the numeric -200.0, which survives in the output. -/
theorem C1_sentinel_survives_pipeline :
    replaceSentinel (Val.vstr "-200,0") = Val.vstr "-200,0"
    ∧ numericCell (Val.vstr "-200,0") = Val.vnum (-200)
    ∧ clean_data (some [("CO(GT)", [Val.vstr "-200,0"])])
      = some [("CO(GT)", [Val.vnum (-200)]),
          ("DateTime", [Val.absent]), ("Datetime", [Val.absent])]
    ∧ getCol (cleanBody [("CO(GT)", [Val.vstr "-200,0"])]) "CO(GT)"
      = some [Val.vnum (-200)] := by
  refine ⟨by decide, by decide, ?_, by decide⟩
  show some (cleanBody [("CO(GT)", [Val.vstr "-200,0"])]) = _
  rw [show cleanBody [("CO(GT)", [Val.vstr "-200,0"])]
    = [("CO(GT)", [Val.vnum (-200)]),
        ("DateTime", [Val.absent]), ("Datetime", [Val.absent])] from by decide]

/-- C2: per-value time parsing is the ordered fallback chain of analysis.py
lines 67-78 with first-successful-stage-wins semantics — after '.'→':'
normalization, strict %H:%M:%S, then strict %H:%M, then format inference on
the original un-normalized string, else absent; "18:00:00", "18.00.00" and
"18:00" all give 18:00:00, "not-a-time" gives absent, and the column holds
only a time-of-day or absent. -/
theorem C2_time_parsing_chain :
    (∀ v : Val, timeStageCell v = timeChain (pyStr v))
    ∧ (∀ s : String, ∀ t : Time,
        parseHMS (mapChar '.' ':' (myTrim s.data)) = some t →
        timeChain s.data = Val.vtime t)
    ∧ (∀ s : String, ∀ t : Time,
        parseHMS (mapChar '.' ':' (myTrim s.data)) = none →
        parseHM (mapChar '.' ':' (myTrim s.data)) = some t →
        timeChain s.data = Val.vtime t)
    ∧ (∀ s : String, ∀ t : Time,
        parseHMS (mapChar '.' ':' (myTrim s.data)) = none →
        parseHM (mapChar '.' ':' (myTrim s.data)) = none →
        parseTimeTxt (myTrim s.data) = some t →
        timeChain s.data = Val.vtime t)
    ∧ (∀ s : String,
        parseHMS (mapChar '.' ':' (myTrim s.data)) = none →
        parseHM (mapChar '.' ':' (myTrim s.data)) = none →
        parseTimeTxt (myTrim s.data) = none →
        timeChain s.data = Val.absent)
    ∧ timeChain "18:00:00".data = Val.vtime ⟨18, 0, 0⟩
    ∧ timeChain "18.00.00".data = Val.vtime ⟨18, 0, 0⟩
    ∧ timeChain "18:00".data = Val.vtime ⟨18, 0, 0⟩
    ∧ timeChain "not-a-time".data = Val.absent
    ∧ (∀ s : String,
        (∃ t, timeChain s.data = Val.vtime t ∧ timeValid t)
        ∨ timeChain s.data = Val.absent) := by
  refine ⟨fun v => rfl, ?_, ?_, ?_, ?_, by decide, by decide, by decide, by decide,
    fun s => timeChain_cases s.data⟩
  · intro s t h1
    rw [timeChain_eq, h1]
  · intro s t h1 h2
    rw [timeChain_eq, h1, h2]
  · intro s t h1 h2 h3
    rw [timeChain_eq, h1, h2, h3]
  · intro s h1 h2 h3
    rw [timeChain_eq, h1, h2, h3]

/-- C2 witness: the chain applied to "7.30" is resolved by the %H:%M stage
after separator normalization. -/
theorem C2_witness :
    timeChain "7.30".data = Val.vtime ⟨7, 30, 0⟩ :=
  C2_time_parsing_chain.2.2.1 "7.30" ⟨7, 30, 0⟩ (by decide) (by decide)

/-- C3: the derived DateTime column is the row-wise combination of the
parsed Date and Time columns; a row combines only when both cells are
non-absent, in which case the rendered "YYYY-MM-DD time" concatenation is
re-parsed with inference (absent on failure, and always succeeding on the
valid values the two parsing stages produce); otherwise the row stays
absent without the combination being attempted. -/
theorem C3_datetime_derivation :
    (∀ t : Table, ∀ dcol tcol : List Val,
      getCol (cleanBody t) "Date" = some dcol →
      getCol (cleanBody t) "Time" = some tcol →
      getCol (cleanBody t) "DateTime" = some (List.zipWith combineCell dcol tcol))
    ∧ (∀ dv tv : Val, dv = Val.absent ∨ tv = Val.absent →
        combineCell dv tv = Val.absent)
    ∧ (∀ dv tv : Val, dv ≠ Val.absent → tv ≠ Val.absent →
        combineCell dv tv
        = match parseDateTimeTxt (strfDate dv ++ ' ' :: pyStr tv) with
          | some p => Val.vdt p.1 p.2
          | none => Val.absent)
    ∧ (∀ d tm, dateValid d → timeValid tm →
        combineCell (Val.vdate d) (Val.vtime tm) = Val.vdt d tm) := by
  refine ⟨?_, ?_, ?_, combineCell_valid⟩
  · intro t dcol tcol hd ht
    rw [cleanBody_dt t, hd, ht]
  · intro dv tv h
    rcases h with h | h
    · subst h
      exact combineCell_absent_left tv
    · subst h
      exact combineCell_absent_right dv
  · intro dv tv h1 h2
    unfold combineCell
    rw [if_pos ⟨h1, h2⟩]

/-- C3 witness: on a one-row frame the DateTime column is exactly the
combination of the parsed Date and Time cells, and a valid date and time
always combine. -/
theorem C3_witness :
    combineCell (Val.vdate ⟨2004, 3, 10⟩) (Val.vtime ⟨18, 0, 0⟩)
      = Val.vdt ⟨2004, 3, 10⟩ ⟨18, 0, 0⟩
    ∧ getCol (cleanBody [("Date", [Val.vstr "2004-03-10"]),
        ("Time", [Val.vstr "18.00.00"])]) "DateTime"
      = some (List.zipWith combineCell
          [Val.vdate ⟨2004, 3, 10⟩] [Val.vtime ⟨18, 0, 0⟩]) :=
  ⟨C3_datetime_derivation.2.2.2 ⟨2004, 3, 10⟩ ⟨18, 0, 0⟩ (by decide) (by decide),
   C3_datetime_derivation.1 _ _ _ (by decide) (by decide)⟩

/-- C4: numeric coercion touches exactly the thirteen named measurement
columns: per cell, astype(str), ','→'.', then to_numeric with coerce
(absent on failure), independently per cell; "9,4" in CO(GT) becomes 9.4;
columns outside the named set are left untouched by the coercion stage. -/
theorem C4_numeric_coercion :
    (∀ t : Table, ∀ col, col ∈ numericColumns →
      getCol (cleanBody t) col
      = (getCol (aliasStep (deriveStep (initStep
          (timeStep (dateStep (replaceStep t)))))) col).map (List.map numericCell))
    ∧ (∀ v, numericCell v
        = match parseNum (mapChar ',' '.' (pyStr v)) with
          | some q => Val.vnum q
          | none => Val.absent)
    ∧ numericCell (Val.vstr "9,4") = Val.vnum (qMk 94 10)
    ∧ qMk 94 10 = (9.4 : ℚ)
    ∧ (∀ t : Table, ∀ col, col ∉ numericColumns →
        getCol (numericStep t) col = getCol t col) := by
  refine ⟨?_, fun v => rfl, by decide, ?_, ?_⟩
  · intro t col hcol
    rw [cleanBody_def, numericStep_eq_fold]
    exact getCol_numericFold_map _ _ _ hcol (by decide)
  · rw [qMk_eq_div _ _ (by norm_num)]
    norm_num
  · intro t col hcol
    rw [numericStep_eq_fold]
    exact getCol_numericFold_notMem _ _ _ hcol

/-- C4 witness: "9,4" in CO(GT) coerces through the pipeline, and a column
outside the named set keeps its comma string. -/
theorem C4_witness :
    getCol (cleanBody [("CO(GT)", [Val.vstr "9,4"])]) "CO(GT)"
      = some [Val.vnum (qMk 94 10)]
    ∧ getCol (numericStep [("note", [Val.vstr "1,5"])]) "note"
      = some [Val.vstr "1,5"] := by
  constructor
  · rw [C4_numeric_coercion.1 [("CO(GT)", [Val.vstr "9,4"])] "CO(GT)" (by decide)]
    decide
  · rw [C4_numeric_coercion.2.2.2.2 [("note", [Val.vstr "1,5"])] "note" (by decide)]
    decide

/-- C5 counterexample: the pipeline is not idempotent on every raw table —
on a comma-decimal sentinel string the first run leaves -200.0 (C1) and the
second run's replace pass nulls it, so the two outputs differ. -/
theorem C5_counterexample :
    clean_data (clean_data (some [("CO(GT)", [Val.vstr "-200,0"])]))
    ≠ clean_data (some [("CO(GT)", [Val.vstr "-200,0"])]) := by
  decide

/-- C5 (amended): clean_data is idempotent on every raw table whose cleaned
output is free of the numeric sentinel -200 — i.e. except when the C1 slip
leaves a coerced "-200,0" in the output, running the pipeline twice yields
the identical table, no cell changing. -/
theorem C5_idempotent_when_sentinel_free (t : Table)
    (h : sentinelFree (cleanBody t)) :
    clean_data (clean_data (some t)) = clean_data (some t) := by
  show some (cleanBody (cleanBody t)) = some (cleanBody t)
  rw [cleanBody_idem t h]

/-- C5 witness: a frame with an ordinary comma-decimal reading and a
dot-separated clock cleans to the same table twice. -/
theorem C5_witness :
    clean_data (clean_data (some [("CO(GT)", [Val.vstr "9,4"]),
        ("Time", [Val.vstr "18.00.00"])]))
    = clean_data (some [("CO(GT)", [Val.vstr "9,4"]),
        ("Time", [Val.vstr "18.00.00"])]) :=
  C5_idempotent_when_sentinel_free _ (by decide)

/-- C6: after clean_data both "DateTime" and "Datetime" exist and hold the
same cells in every row; when the Date or Time source column is missing the
derivation is skipped and every cell of both is absent. -/
theorem C6_alias_columns :
    (∀ t : Table, ∃ v, getCol (cleanBody t) "DateTime" = some v
        ∧ getCol (cleanBody t) "Datetime" = some v)
    ∧ (∀ t : Table, hasCol t "Date" = false ∨ hasCol t "Time" = false →
        ∀ v, getCol (cleanBody t) "DateTime" = some v →
          ∀ x ∈ v, x = Val.absent) := by
  constructor
  · exact cleanBody_alias
  · intro t h v hv x hx
    have hDT := cleanBody_dt t
    have hnone : getCol (cleanBody t) "Date" = none
        ∨ getCol (cleanBody t) "Time" = none := by
      rcases h with h | h
      · left
        rw [cleanBody_date t]
        unfold hasCol at h
        cases hg : getCol t "Date" with
        | none =>
          rw [show replaceStep t = mapTable replaceSentinel t from rfl,
            getCol_mapTable, hg]
          rfl
        | some c => rw [hg] at h; cases h
      · right
        rw [cleanBody_time t]
        unfold hasCol at h
        cases hg : getCol t "Time" with
        | none =>
          rw [show replaceStep t = mapTable replaceSentinel t from rfl,
            getCol_mapTable, hg]
          rfl
        | some c => rw [hg] at h; cases h
    have hrep : getCol (cleanBody t) "DateTime"
        = some (List.replicate (nrows (timeStep (dateStep (replaceStep t))))
            Val.absent) := by
      rcases hnone with hn | hn
      · rw [hDT, hn]
      · rw [hDT, hn]
        cases hd : getCol (cleanBody t) "Date" <;> rfl
    rw [hrep] at hv
    rw [Option.some_inj] at hv
    rw [← hv] at hx
    exact List.eq_of_mem_replicate hx

/-- C6 witness: a frame without Date and Time columns still gets both alias
columns, all rows absent. -/
theorem C6_witness :
    ∀ x ∈ [Val.absent], x = Val.absent :=
  C6_alias_columns.2 [("CO(GT)", [Val.vstr "9,4"])] (Or.inl (by decide))
    [Val.absent] (by decide)

/-- C7: clean_data never mutates its argument: df.copy() at line 52 installs
a distinct working object, every later in-place assignment targets only that
object, so after the statement sequence the caller's frame is unchanged and
the result is the independently built cleaned table. -/
theorem C7_input_never_mutated :
    ∀ (df work0 : Table),
      (cleanProg ⟨df, work0⟩).df = df
      ∧ (cleanProg ⟨df, work0⟩).work = cleanBody df
      ∧ clean_data (some df) = some (cleanBody df) := by
  intro df w
  have h1 : cleanProg ⟨df, w⟩ = ⟨df, cleanBody df⟩ := by
    simp only [cleanProg, stNumeric, stAlias, stDerive, stInit, stTime, stDate,
      stReplace, stCopy, cleanBody]
  exact ⟨by rw [h1], by rw [h1], rfl⟩

/-- C8: load_data converts every load-time failure — FileNotFoundError or
any other exception — to the value None; a successful read always yields a
table (after dropping all-empty columns), so only the total file-level
failure is surfaced, and as a value, never as an exception. -/
theorem C8_load_failures_as_values :
    (∀ p, load_data (LoadOutcome.fileNotFound p) = none)
    ∧ (∀ m, load_data (LoadOutcome.otherFailure m) = none)
    ∧ (∀ t, load_data (LoadOutcome.ok t) = some (dropEmptyCols t))
    ∧ (∀ o, load_data o = none ∨ ∃ u, load_data o = some u) :=
  ⟨fun p => rfl, fun m => rfl, fun t => rfl, fun o => by
    cases o with
    | ok t => exact Or.inr ⟨dropEmptyCols t, rfl⟩
    | fileNotFound p => exact Or.inl rfl
    | otherFailure m => exact Or.inl rfl⟩

/-- C9: filter_by_date_range is inclusive on both bounds (>= and <= at
lines 193 and 196), an absent bound imposes no constraint on its side, and
with both bounds absent the table is returned unchanged. -/
theorem C9_filter_inclusive_bounds :
    (∀ t : Table, filter_by_date_range (some t) none none = Except.ok (some t))
    ∧ (∀ b : Date, geBound b (Val.vdate b) = true ∧ leBound b (Val.vdate b) = true)
    ∧ (∀ t dcol (s : String) b, getCol t "Date" = some dcol →
        s ≠ "" → parseDateTxt (myTrim s.data) = some b →
        filter_by_date_range (some t) (some s) none
          = Except.ok (some (applyMask (dcol.map (geBound b)) t)))
    ∧ (∀ t dcol (s : String) b, getCol t "Date" = some dcol →
        s ≠ "" → parseDateTxt (myTrim s.data) = some b →
        filter_by_date_range (some t) none (some s)
          = Except.ok (some (applyMask (dcol.map (leBound b)) t))) := by
  refine ⟨fun t => rfl, ?_, ?_, ?_⟩
  · intro b
    constructor
    · show (match cellTS (Val.vdate b) with
        | some ts => tsLE (b, ⟨0, 0, 0⟩) ts
        | none => false) = true
      exact tsLE_refl _
    · show (match cellTS (Val.vdate b) with
        | some ts => tsLE ts (b, ⟨0, 0, 0⟩)
        | none => false) = true
      exact tsLE_refl _
  · intro t dcol s b hd hs hb
    have hse : s.isEmpty = false := by
      cases he : s.isEmpty with
      | false => rfl
      | true => exact absurd ((String.isEmpty_iff s).mp he) hs
    simp [filter_by_date_range, hse, hb, filterOn, hd]
  · intro t dcol s b hd hs hb
    have hse : s.isEmpty = false := by
      cases he : s.isEmpty with
      | false => rfl
      | true => exact absurd ((String.isEmpty_iff s).mp he) hs
    simp [filter_by_date_range, hse, hb, filterOn, hd]

/-- C9 witness: with the start bound 2004-03-10, the row dated exactly
2004-03-10 is retained and the earlier row is dropped. -/
theorem C9_witness :
    filter_by_date_range
      (some [("Date", [Val.vdate ⟨2004, 3, 10⟩, Val.vdate ⟨2004, 3, 9⟩])])
      (some "2004-03-10") none
    = Except.ok (some [("Date", [Val.vdate ⟨2004, 3, 10⟩])]) := by
  rw [C9_filter_inclusive_bounds.2.2.1
    [("Date", [Val.vdate ⟨2004, 3, 10⟩, Val.vdate ⟨2004, 3, 9⟩])]
    [Val.vdate ⟨2004, 3, 10⟩, Val.vdate ⟨2004, 3, 9⟩]
    "2004-03-10" ⟨2004, 3, 10⟩ (by decide) (by decide) (by decide)]
  rfl

/-- C10: every analysis function accepts the no-data value of a failed
load without raising: clean_data, filter_by_date_range and
get_daily_averages return None, get_data_summary returns the empty dict. -/
theorem C10_none_inputs_tolerated :
    clean_data none = none
    ∧ (∀ s e, filter_by_date_range none s e = Except.ok none)
    ∧ get_daily_averages none = Except.ok none
    ∧ get_data_summary none = Except.ok [] :=
  ⟨rfl, fun s e => rfl, rfl, rfl⟩
